import Mathlib

/-!
Assistants client: messages and runs.

A shallow embedding of `message.go` and `run.go` of the Go package `openai`.

* The four operations `CreateMessage`, `CreateRun`, `RetrieveRun` and
  `SubmitToolOutputs` are state-passing functions over a transport `Client`
  whose two helpers (`newRequest`, `sendRequest`) are fields: their code lives
  outside the two source files.
* The records (`Run`, `Message`, `ToolOutputs`, ...) are structures; the JSON
  binding given by their struct tags is embedded as a decoder and an encoder
  over JSON values, following the rules of the standard `encoding/json`
  package (case-folded key matching, first saved type error, `omitempty`,
  nil slices and maps encoded as `null`).
-/

namespace OpenAI

/-! ## Formatting and HTTP headers -/

/-- Expansion of the `%s` verbs of a format string over its arguments, on
character lists; a verb without argument prints `%!s(MISSING)`. -/
def sprintfAux : List Char → List String → List Char
  | [], _ => []
  | '%' :: 's' :: rest, a :: args => a.data ++ sprintfAux rest args
  | '%' :: 's' :: rest, [] => "%!s(MISSING)".data ++ sprintfAux rest []
  | c :: rest, args => c :: sprintfAux rest args

/-- The call `fmt.Sprintf(format, args...)` for string arguments and `%s` verbs,
with no more arguments than verbs. -/
def Sprintf (format : String) (args : List String) : String :=
  String.mk (sprintfAux format.data args)

/-- `http.MethodGet`. -/
def MethodGet : String := "GET"

/-- `http.MethodPost`. -/
def MethodPost : String := "POST"

/-- `http.Header`: header names with their value lists. -/
abbrev Header := List (String × List String)

/-- Token characters of a header field name (`validHeaderFieldByte`). -/
def validHeaderFieldByte (c : Char) : Bool :=
  c.isAlphanum ||
    [33, 35, 36, 37, 38, 39, 42, 43, 45, 46, 94, 95, 96, 124, 126].contains c.toNat

/-- Canonical case of a header key: upper case at the start and after each
dash, lower case elsewhere. -/
def canonCase : Bool → List Char → List Char
  | _, [] => []
  | upper, c :: cs =>
    let c1 := if upper then c.toUpper else c.toLower
    c1 :: canonCase (c1 == '-') cs

/-- `textproto.CanonicalMIMEHeaderKey`: a key made of token characters only is
put in canonical case, any other key is returned unchanged. -/
def CanonicalMIMEHeaderKey (s : String) : String :=
  if s.data.all validHeaderFieldByte then String.mk (canonCase true s.data) else s

/-- `Header.Set`: the values of the canonical key are replaced by the single value. -/
def Header.Set (h : Header) (key value : String) : Header :=
  (CanonicalMIMEHeaderKey key, [value]) ::
    h.filter (fun e => e.1 != CanonicalMIMEHeaderKey key)

/-- `Header.Values`: all values of the canonical key. -/
def Header.Values (h : Header) (key : String) : List String :=
  match h.lookup (CanonicalMIMEHeaderKey key) with
  | some vs => vs
  | none => []

/-- `Header.Get`: first value of the canonical key, or the empty string. -/
def Header.Get (h : Header) (key : String) : String :=
  match h.Values key with
  | v :: _ => v
  | [] => ""

/-! ## Transport helpers and the four operations -/

/-- Modelled from the spec: the path constant `threadsSuffix` is declared outside
the two source files; the spec gives the endpoint family `/threads`. -/
def threadsSuffix : String := "/threads"

/-- Constant `messages` of `message.go`. -/
def messages : String := "/messages"

/-- Constant `runs` of `run.go`. -/
def runs : String := "/runs"

/-- Constant `submitToolOutputs` of `run.go`. -/
def submitToolOutputs : String := "submit_tool_outputs"

/-- Modelled from the spec: `requestOptions` is declared outside the two source
files; an option sets the body or the header of the request being built. -/
structure requestOptions (β : Type) where
  body : Option β
  header : Header

/-- A request option: a function updating the options in place. -/
abbrev requestOption (β : Type) := requestOptions β → requestOptions β

/-- Modelled from the spec: `withBody` is declared outside the two source files;
it attaches the value to be JSON-encoded as request body. -/
def withBody {β : Type} (body : β) : requestOption β :=
  fun args => { args with body := some body }

/-- The option literal of `run.go`:
`func(args *requestOptions) { args.header.Set("OpenAI-Beta", "assistants=v1") }`. -/
def betaHeader {β : Type} : requestOption β :=
  fun args => { args with header := args.header.Set "OpenAI-Beta" "assistants=v1" }

/-- Application of the options in order, as a request builder does. -/
def applyOptions {β : Type} (setters : List (requestOption β)) (args : requestOptions β) :
    requestOptions β :=
  setters.foldl (fun a f => f a) args

/-- The transport collaborator of an operation sending a body of type `β` and
decoding into a destination of type `ρ`. Both helpers act on a world state `σ`.
`sendRequest req v` receives the current content of the destination `v` and
returns what it leaves there together with its error. -/
structure Client (σ Req Err β ρ : Type) where
  fullURL : String → String
  newRequest : String → String → List (requestOption β) → σ → Except Err Req × σ
  sendRequest : Req → ρ → σ → (ρ × Option Err) × σ

section Operations

variable {σ Req Err β ρ : Type}

/-- `CreateMessage` of `message.go`; `zero` is the zero value of the named
result `response`, which `sendRequest` receives by reference. -/
def Client.CreateMessage (c : Client σ Req Err β ρ) (zero : ρ) (threadID : String) (request : β)
    (s : σ) : (ρ × Option Err) × σ :=
  let postPath := Sprintf "%s/%s/%s" [threadsSuffix, threadID, messages]
  match c.newRequest MethodPost (c.fullURL postPath) [withBody request] s with
  | (.error err, s1) => ((zero, some err), s1)
  | (.ok req, s1) => c.sendRequest req zero s1

/-- `CreateRun` of `run.go`. -/
def Client.CreateRun (c : Client σ Req Err β ρ) (zero : ρ) (threadID : String) (request : β)
    (s : σ) : (ρ × Option Err) × σ :=
  let path := Sprintf "%s/%s/%s" [threadsSuffix, threadID, runs]
  match c.newRequest MethodPost (c.fullURL path) [withBody request, betaHeader] s with
  | (.error err, s1) => ((zero, some err), s1)
  | (.ok req, s1) => c.sendRequest req zero s1

/-- `RetrieveRun` of `run.go`. -/
def Client.RetrieveRun (c : Client σ Req Err β ρ) (zero : ρ) (threadID runID : String)
    (s : σ) : (ρ × Option Err) × σ :=
  let path := Sprintf "%s/%s/%s/%s" [threadsSuffix, threadID, runs, runID]
  match c.newRequest MethodGet (c.fullURL path) [betaHeader] s with
  | (.error err, s1) => ((zero, some err), s1)
  | (.ok req, s1) => c.sendRequest req zero s1

/-- `SubmitToolOutputs` of `run.go`. -/
def Client.SubmitToolOutputs (c : Client σ Req Err β ρ) (zero : ρ) (threadID runID : String)
    (request : β) (s : σ) : (ρ × Option Err) × σ :=
  let path := Sprintf "%s/%s/%s/%s/%s" [threadsSuffix, threadID, runs, runID, submitToolOutputs]
  match c.newRequest MethodPost (c.fullURL path) [withBody request, betaHeader] s with
  | (.error err, s1) => ((zero, some err), s1)
  | (.ok req, s1) => c.sendRequest req zero s1

/-- A call of a transport helper, as observed from outside the operation. -/
inductive Call (Req β : Type) where
  | newRequest (method url : String) (setters : List (requestOption β))
  | sendRequest (req : Req)

/-- The same client with every helper call appended to a log kept next to the
world state. -/
def Client.logged (c : Client σ Req Err β ρ) : Client (σ × List (Call Req β)) Req Err β ρ where
  fullURL := c.fullURL
  newRequest := fun method url setters st =>
    let r := c.newRequest method url setters st.1
    (r.1, (r.2, st.2 ++ [Call.newRequest method url setters]))
  sendRequest := fun req v st =>
    let r := c.sendRequest req v st.1
    (r.1, (r.2, st.2 ++ [Call.sendRequest req]))

/-- Number of `sendRequest` calls in a log. -/
def sendCount : List (Call Req β) → Nat
  | [] => 0
  | Call.sendRequest _ :: cs => sendCount cs + 1
  | Call.newRequest _ _ _ :: cs => sendCount cs

/-- Setters of the first `newRequest` call of a log. -/
def loggedSetters : List (Call Req β) → List (requestOption β)
  | Call.newRequest _ _ setters :: _ => setters
  | _ => []

/-- What a single attempt leaves on a logged client: when `newRequest` fails,
its error with the zero value and a log of that one call; else the outcome of
one `sendRequest` on the built request and a log of the two calls. -/
def singleAttempt (c : Client σ Req Err β ρ) (zero : ρ) (method url : String)
    (setters : List (requestOption β)) (s : σ) : (ρ × Option Err) × (σ × List (Call Req β)) :=
  match c.newRequest method url setters s with
  | (.error err, s1) => ((zero, some err), (s1, [Call.newRequest method url setters]))
  | (.ok req, s1) =>
    ((c.sendRequest req zero s1).1,
      ((c.sendRequest req zero s1).2, [Call.newRequest method url setters, Call.sendRequest req]))

end Operations

/-! ## JSON values and the generic rules of `encoding/json`

A document is a JSON value; number literals are integer literals. -/

/-- A JSON value. -/
inductive JSON where
  | null
  | bool (b : Bool)
  | num (n : Int)
  | str (s : String)
  | arr (items : List JSON)
  | obj (members : List (String × JSON))

/-- The error `*json.UnmarshalTypeError`: description of the JSON value and name
of the Go type it could not be stored in (offset and field path are not kept). -/
structure UnmarshalTypeError where
  Value : String
  Type_ : String
  deriving DecidableEq

/-- Result of decoding into a destination: what the destination holds afterwards
and the saved error, if any. -/
abbrev Decoded (α : Type) := α × Option UnmarshalTypeError

/-- Description of a JSON value in the error of a value of the wrong kind. -/
def JSON.kind : JSON → String
  | .null => "null"
  | .bool _ => "bool"
  | .num _ => "number"
  | .str _ => "string"
  | .arr _ => "array"
  | .obj _ => "object"

/-- Store a JSON value in a `string`: `null` is ignored, any other non-string
value is a type error that leaves the destination unchanged. -/
def decodeString (v : JSON) (cur : String) : Decoded String :=
  match v with
  | .null => (cur, none)
  | .str s => (s, none)
  | v => (cur, some ⟨v.kind, "string"⟩)

/-- Store a JSON value in a signed integer of `bits` bits: `null` is ignored; a
number outside `[-2^(bits-1), 2^(bits-1) - 1]` is a type error that quotes the
literal; a value that is no number is a type error. Either error leaves the
destination unchanged. -/
def decodeInt (bits : Nat) (v : JSON) (cur : Int) : Decoded Int :=
  match v with
  | .null => (cur, none)
  | .num n =>
    if -(2 ^ (bits - 1) : Int) ≤ n ∧ n < (2 ^ (bits - 1) : Int) then (n, none)
    else (cur, some ⟨"number " ++ toString n, "int" ++ toString bits⟩)
  | v => (cur, some ⟨v.kind, "int" ++ toString bits⟩)

/-- Decode the items of an array into the elements of a slice: item `i` is
decoded into the element already at index `i`, or into a zero element when the
slice is shorter (spare capacity is taken to hold zero values). -/
def decodeElems {α : Type} (dec : JSON → α → Decoded α) (zero : α) :
    List JSON → List α → Decoded (List α)
  | [], _ => ([], none)
  | v :: vs, cur =>
    let x := dec v (cur.headD zero)
    let xs := decodeElems dec zero vs cur.tail
    (x.1 :: xs.1, x.2.or xs.2)

/-- Store a JSON value in a slice (`none` is the nil slice): `null` gives nil, an
array gives a non-nil slice of its decoded items. -/
def decodeSlice {α : Type} (dec : JSON → α → Decoded α) (zero : α) (tname : String)
    (v : JSON) (cur : Option (List α)) : Decoded (Option (List α)) :=
  match v with
  | .null => (none, none)
  | .arr items =>
    let xs := decodeElems dec zero items (cur.getD [])
    (some xs.1, xs.2)
  | v => (cur, some ⟨v.kind, tname⟩)

/-- Simple case folding of a key character as far as it can reach an ASCII
letter: ASCII letters, the Kelvin sign and the long s. -/
def foldRune (c : Char) : Char :=
  if c = Char.ofNat 0x212A then 'K' else if c = Char.ofNat 0x17F then 'S' else c.toUpper

/-- Folded form of a key (`foldName`). -/
def foldName (s : String) : List Char := s.data.map foldRune

/-- Field of a struct bound to an object key: the field whose tag name is the
key, else the first field whose folded tag name is the folded key. -/
def findField {φ : Type} (fields : List (φ × String)) (key : String) : Option φ :=
  match fields.find? (fun f => f.2 == key) with
  | some f => some f.1
  | none => (fields.find? (fun f => foldName f.2 == foldName key)).map Prod.fst

/-- One member of an object decoded into a struct: a key bound to no field is
skipped; the first error is the one kept. -/
def decodeMember {α φ : Type} (find : String → Option φ) (store : φ → JSON → α → Decoded α)
    (acc : Decoded α) (m : String × JSON) : Decoded α :=
  match find m.1 with
  | none => acc
  | some f =>
    let r := store f m.2 acc.1
    (r.1, acc.2.or r.2)

/-- Store a JSON value in a struct: `null` is ignored, the members of an object
are stored in document order, anything else is a type error. -/
def decodeStruct {α φ : Type} (find : String → Option φ) (store : φ → JSON → α → Decoded α)
    (tname : String) (v : JSON) (cur : α) : Decoded α :=
  match v with
  | .null => (cur, none)
  | .obj ms => ms.foldl (decodeMember find store) (cur, none)
  | v => (cur, some ⟨v.kind, tname⟩)

/-- A value held by an `interface{}` after decoding. A `float64` is kept as the
integer it is equal to. -/
inductive GoAny where
  | nil
  | bool (b : Bool)
  | float64 (v : Int)
  | string (s : String)
  | slice (items : List GoAny)
  | map (entries : List (String × GoAny))

/-- Assignment `m[k] = x` on a map kept as an association list. -/
def mapInsert {α : Type} (k : String) (x : α) : List (String × α) → List (String × α)
  | [] => [(k, x)]
  | (k1, y) :: m => if k1 = k then (k, x) :: m else (k1, y) :: mapInsert k x m

/-- Nearest `float64` of a natural number (ties to even), as a natural number. -/
def roundFloat64 (a : Nat) : Nat :=
  if a ≤ 2 ^ 53 then a
  else
    let sh := Nat.log2 a - 52
    let q := a / 2 ^ sh
    let r := a % 2 ^ sh
    let half := 2 ^ (sh - 1)
    (if half < r ∨ (r = half ∧ q % 2 = 1) then q + 1 else q) * 2 ^ sh

/-- A number literal stored in an `interface{}`: its nearest `float64`, or a
type error when that is out of range. -/
def convertNumber (n : Int) : Decoded GoAny :=
  let m := roundFloat64 n.natAbs
  if m < 2 ^ 1024 then (.float64 (if n < 0 then -(m : Int) else (m : Int)), none)
  else (.nil, some ⟨"number " ++ toString n, "float64"⟩)

mutual
/-- A JSON value stored in an `interface{}`. -/
def decodeAny : JSON → Decoded GoAny
  | .null => (.nil, none)
  | .bool b => (.bool b, none)
  | .num n => convertNumber n
  | .str s => (.string s, none)
  | .arr items =>
    let r := decodeAnyItems items
    (.slice r.1, r.2)
  | .obj ms =>
    let r := decodeAnyMembers ms
    (.map (r.1.foldl (fun m e => mapInsert e.1 e.2 m) []), r.2)
/-- The items of an array stored in a `[]interface{}`. -/
def decodeAnyItems : List JSON → Decoded (List GoAny)
  | [] => ([], none)
  | v :: vs =>
    let a := decodeAny v
    let r := decodeAnyItems vs
    (a.1 :: r.1, a.2.or r.2)
/-- The members of an object, each value stored in an `interface{}`. -/
def decodeAnyMembers : List (String × JSON) → Decoded (List (String × GoAny))
  | [] => ([], none)
  | (k, v) :: ms =>
    let a := decodeAny v
    let r := decodeAnyMembers ms
    ((k, a.1) :: r.1, a.2.or r.2)
end

/-- Store a JSON value in a `map[string]interface{}` (`none` is the nil map):
`null` gives nil, the members of an object are assigned into the current map. -/
def decodeMap (v : JSON) (cur : Option (List (String × GoAny))) :
    Decoded (Option (List (String × GoAny))) :=
  match v with
  | .null => (none, none)
  | .obj ms =>
    let r := decodeAnyMembers ms
    (some (r.1.foldl (fun m e => mapInsert e.1 e.2 m) (cur.getD [])), r.2)
  | v => (cur, some ⟨v.kind, "map[string]interface {}"⟩)

/-- Shortest decimal that reads back as the `float64` `v` (an integer above
`2^53`), nearest to `v` among the shortest ones. -/
def shortestDecimal (v : Nat) : Nat :=
  let len := (Nat.toDigits 10 v).length
  ((List.range 17).findSome? (fun i =>
    if len ≤ i + 1 then some v
    else
      let p := 10 ^ (len - (i + 1))
      let lo := v / p * p
      let hi := lo + p
      let c1 := if v - lo ≤ hi - v then lo else hi
      let c2 := if v - lo ≤ hi - v then hi else lo
      if roundFloat64 c1 = v then some c1
      else if roundFloat64 c2 = v then some c2 else none)).getD v

/-- Value of the literal printed for an integer-valued `float64`. -/
def formatFloat64 (v : Int) : Int :=
  if v.natAbs ≤ 2 ^ 53 then v
  else if v < 0 then -(shortestDecimal v.natAbs : Int) else (shortestDecimal v.natAbs : Int)

/-- Members of an encoded map, sorted by key. -/
def sortMembers (ms : List (String × JSON)) : List (String × JSON) :=
  ms.insertionSort (fun a b => a.1 ≤ b.1)

mutual
/-- Encoding of the value held by an `interface{}`. -/
def encodeAny : GoAny → JSON
  | .nil => .null
  | .bool b => .bool b
  | .float64 v => .num (formatFloat64 v)
  | .string s => .str s
  | .slice items => .arr (encodeAnyItems items)
  | .map es => .obj (sortMembers (encodeAnyEntries es))
/-- Encoding of the elements of a `[]interface{}`. -/
def encodeAnyItems : List GoAny → List JSON
  | [] => []
  | a :: as => encodeAny a :: encodeAnyItems as
/-- Encoding of the entries of a `map[string]interface{}`, before sorting. -/
def encodeAnyEntries : List (String × GoAny) → List (String × JSON)
  | [] => []
  | (k, a) :: es => (k, encodeAny a) :: encodeAnyEntries es
end

/-- Encoding of a slice: `null` for the nil slice. -/
def encodeSlice {α : Type} (enc : α → JSON) : Option (List α) → JSON
  | none => .null
  | some xs => .arr (xs.map enc)

/-- Encoding of a `map[string]interface{}`: `null` for the nil map, else an
object with sorted keys. -/
def encodeMap : Option (List (String × GoAny)) → JSON
  | none => .null
  | some es => .obj (sortMembers (encodeAnyEntries es))

/-- A string member with `omitempty`: left out when the string is empty. -/
def omitEmptyString (key s : String) : List (String × JSON) :=
  if s = "" then [] else [(key, .str s)]

/-- An integer member with `omitempty`: left out when the integer is zero. -/
def omitEmptyInt (key : String) (n : Int) : List (String × JSON) :=
  if n = 0 then [] else [(key, .num n)]

/-- Value of the first member with the given key. -/
def JSON.lookup (key : String) : JSON → Option JSON
  | .obj ms => ms.lookup key
  | _ => none

/-- Keys of an object, in order. -/
def JSON.keys : JSON → List String
  | .obj ms => ms.map Prod.fst
  | _ => []

/-! ## The records of `run.go` and their JSON binding -/

/-- `Function` of `run.go`. -/
structure Function where
  Name : String
  Arguments : String
  deriving DecidableEq

/-- `RunToolCall` of `run.go`. -/
structure RunToolCall where
  ID : String
  Type_ : String
  Function : Function
  deriving DecidableEq

/-- Modelled from the spec: the element type `ToolCall` of
`SubmitToolOutputs.ToolCalls` is declared outside the two source files; the spec
describes a pending call as a call identifier, a function name and an argument
string, which is the record `RunToolCall`. -/
abbrev ToolCall := RunToolCall

/-- `SubmitToolOutputs` of `run.go`. -/
structure SubmitToolOutputs where
  ToolCalls : Option (List ToolCall)
  deriving DecidableEq

/-- `RequiredAction` of `run.go`. -/
structure RequiredAction where
  Type_ : String
  SubmitToolOutputs : SubmitToolOutputs
  deriving DecidableEq

/-- `RunTool` of `run.go`. -/
structure RunTool where
  Type_ : String
  deriving DecidableEq

/-- `LastError` of `run.go`. -/
structure LastError where
  Code : String
  Message : String
  deriving DecidableEq

/-- `Run` of `run.go`. The embedded `httpHeader` (a header map declared outside
the two source files, not exported, hence no JSON member) is kept as a field. -/
structure Run where
  ID : String
  Object : String
  CreatedAt : Int
  ThreadID : String
  AssistantID : String
  Status : String
  RequiredAction : RequiredAction
  LastError : LastError
  ExpiresAt : Int
  StartedAt : Int
  CancelledAt : Int
  FailedAt : Int
  CompletedAt : Int
  Model : String
  Instructions : String
  Tools : Option (List RunTool)
  FileIds : Option (List String)
  Metadata : Option (List (String × GoAny))
  httpHeader : Header

/-- `CreateRunRequest` of `run.go`. -/
structure CreateRunRequest where
  AssistantID : String
  deriving DecidableEq

/-- `ToolOutputs` of `run.go`. -/
structure ToolOutputs where
  ToolCallID : String
  Output : String
  deriving DecidableEq

/-- `ToolOutputsRequest` of `run.go`. -/
structure ToolOutputsRequest where
  ToolOutputs : Option (List ToolOutputs)
  deriving DecidableEq

/-- Zero value of `Function`. -/
def Function.zero : Function := ⟨"", ""⟩

/-- Zero value of `RunToolCall`. -/
def RunToolCall.zero : RunToolCall := ⟨"", "", Function.zero⟩

/-- Zero value of `SubmitToolOutputs`. -/
def SubmitToolOutputs.zero : SubmitToolOutputs := ⟨none⟩

/-- Zero value of `RequiredAction`. -/
def RequiredAction.zero : RequiredAction := ⟨"", SubmitToolOutputs.zero⟩

/-- Zero value of `RunTool`. -/
def RunTool.zero : RunTool := ⟨""⟩

/-- Zero value of `LastError`. -/
def LastError.zero : LastError := ⟨"", ""⟩

/-- Zero value of `ToolOutputs`. -/
def ToolOutputs.zero : ToolOutputs := ⟨"", ""⟩

/-- Zero value of `Run`. -/
def Run.zero : Run where
  ID := ""
  Object := ""
  CreatedAt := 0
  ThreadID := ""
  AssistantID := ""
  Status := ""
  RequiredAction := RequiredAction.zero
  LastError := LastError.zero
  ExpiresAt := 0
  StartedAt := 0
  CancelledAt := 0
  FailedAt := 0
  CompletedAt := 0
  Model := ""
  Instructions := ""
  Tools := none
  FileIds := none
  Metadata := none
  httpHeader := []

/-- Fields of `Function`. -/
inductive FunctionField where
  | Name | Arguments
  deriving DecidableEq

/-- Tag names of `Function`. -/
def Function.fields : List (FunctionField × String) :=
  [(.Name, "name"), (.Arguments, "arguments")]

/-- Store a member value in a field of `Function`. -/
def Function.store (f : FunctionField) (v : JSON) (x : Function) : Decoded Function :=
  match f with
  | .Name => let d := decodeString v x.Name; ({ x with Name := d.1 }, d.2)
  | .Arguments => let d := decodeString v x.Arguments; ({ x with Arguments := d.1 }, d.2)

/-- Decoding into a `Function`. -/
def decodeFunction : JSON → Function → Decoded Function :=
  decodeStruct (findField Function.fields) Function.store "openai.Function"

/-- Fields of `RunToolCall`. -/
inductive RunToolCallField where
  | ID | Type_ | Function
  deriving DecidableEq

/-- Tag names of `RunToolCall`. -/
def RunToolCall.fields : List (RunToolCallField × String) :=
  [(.ID, "id"), (.Type_, "type"), (.Function, "function")]

/-- Store a member value in a field of `RunToolCall`. -/
def RunToolCall.store (f : RunToolCallField) (v : JSON) (x : RunToolCall) :
    Decoded RunToolCall :=
  match f with
  | .ID => let d := decodeString v x.ID; ({ x with ID := d.1 }, d.2)
  | .Type_ => let d := decodeString v x.Type_; ({ x with Type_ := d.1 }, d.2)
  | .Function => let d := decodeFunction v x.Function; ({ x with Function := d.1 }, d.2)

/-- Decoding into a `RunToolCall`. -/
def decodeRunToolCall : JSON → RunToolCall → Decoded RunToolCall :=
  decodeStruct (findField RunToolCall.fields) RunToolCall.store "openai.RunToolCall"

/-- Fields of `SubmitToolOutputs`. -/
inductive SubmitToolOutputsField where
  | ToolCalls
  deriving DecidableEq

/-- Tag names of `SubmitToolOutputs`. -/
def SubmitToolOutputs.fields : List (SubmitToolOutputsField × String) :=
  [(.ToolCalls, "tool_calls")]

/-- Store a member value in a field of `SubmitToolOutputs`. -/
def SubmitToolOutputs.store (f : SubmitToolOutputsField) (v : JSON) (x : SubmitToolOutputs) :
    Decoded SubmitToolOutputs :=
  match f with
  | .ToolCalls =>
    let d := decodeSlice decodeRunToolCall RunToolCall.zero "[]openai.ToolCall" v x.ToolCalls
    ({ x with ToolCalls := d.1 }, d.2)

/-- Decoding into a `SubmitToolOutputs`. -/
def decodeSubmitToolOutputs : JSON → SubmitToolOutputs → Decoded SubmitToolOutputs :=
  decodeStruct (findField SubmitToolOutputs.fields) SubmitToolOutputs.store
    "openai.SubmitToolOutputs"

/-- Fields of `RequiredAction`. -/
inductive RequiredActionField where
  | Type_ | SubmitToolOutputs
  deriving DecidableEq

/-- Tag names of `RequiredAction`. -/
def RequiredAction.fields : List (RequiredActionField × String) :=
  [(.Type_, "type"), (.SubmitToolOutputs, "submit_tool_outputs")]

/-- Store a member value in a field of `RequiredAction`. -/
def RequiredAction.store (f : RequiredActionField) (v : JSON) (x : RequiredAction) :
    Decoded RequiredAction :=
  match f with
  | .Type_ => let d := decodeString v x.Type_; ({ x with Type_ := d.1 }, d.2)
  | .SubmitToolOutputs =>
    let d := decodeSubmitToolOutputs v x.SubmitToolOutputs
    ({ x with SubmitToolOutputs := d.1 }, d.2)

/-- Decoding into a `RequiredAction`. -/
def decodeRequiredAction : JSON → RequiredAction → Decoded RequiredAction :=
  decodeStruct (findField RequiredAction.fields) RequiredAction.store "openai.RequiredAction"

/-- Fields of `RunTool`. -/
inductive RunToolField where
  | Type_
  deriving DecidableEq

/-- Tag names of `RunTool`. -/
def RunTool.fields : List (RunToolField × String) := [(.Type_, "type")]

/-- Store a member value in a field of `RunTool`. -/
def RunTool.store (f : RunToolField) (v : JSON) (x : RunTool) : Decoded RunTool :=
  match f with
  | .Type_ => let d := decodeString v x.Type_; ({ x with Type_ := d.1 }, d.2)

/-- Decoding into a `RunTool`. -/
def decodeRunTool : JSON → RunTool → Decoded RunTool :=
  decodeStruct (findField RunTool.fields) RunTool.store "openai.RunTool"

/-- Fields of `LastError`. -/
inductive LastErrorField where
  | Code | Message
  deriving DecidableEq

/-- Tag names of `LastError`. -/
def LastError.fields : List (LastErrorField × String) :=
  [(.Code, "code"), (.Message, "message")]

/-- Store a member value in a field of `LastError`. -/
def LastError.store (f : LastErrorField) (v : JSON) (x : LastError) : Decoded LastError :=
  match f with
  | .Code => let d := decodeString v x.Code; ({ x with Code := d.1 }, d.2)
  | .Message => let d := decodeString v x.Message; ({ x with Message := d.1 }, d.2)

/-- Decoding into a `LastError`. -/
def decodeLastError : JSON → LastError → Decoded LastError :=
  decodeStruct (findField LastError.fields) LastError.store "openai.LastError"

/-- Fields of `Run` that have a JSON member. -/
inductive RunField where
  | ID | Object | CreatedAt | ThreadID | AssistantID | Status | RequiredAction | LastError
  | ExpiresAt | StartedAt | CancelledAt | FailedAt | CompletedAt | Model | Instructions
  | Tools | FileIds | Metadata
  deriving DecidableEq

/-- Tag names of `Run`, in declaration order. -/
def Run.fields : List (RunField × String) :=
  [(.ID, "id"), (.Object, "object"), (.CreatedAt, "created_at"), (.ThreadID, "thread_id"),
   (.AssistantID, "assistant_id"), (.Status, "status"), (.RequiredAction, "required_action"),
   (.LastError, "last_error"), (.ExpiresAt, "expires_at"), (.StartedAt, "started_at"),
   (.CancelledAt, "cancelled_at"), (.FailedAt, "failed_at"), (.CompletedAt, "completed_at"),
   (.Model, "model"), (.Instructions, "instructions"), (.Tools, "tools"),
   (.FileIds, "file_ids"), (.Metadata, "metadata")]

/-- Store a member value in a field of `Run`: `CreatedAt` and `ExpiresAt` are
`int32`, the four other timestamps are `int64`. -/
def Run.store (f : RunField) (v : JSON) (r : Run) : Decoded Run :=
  match f with
  | .ID => let d := decodeString v r.ID; ({ r with ID := d.1 }, d.2)
  | .Object => let d := decodeString v r.Object; ({ r with Object := d.1 }, d.2)
  | .CreatedAt => let d := decodeInt 32 v r.CreatedAt; ({ r with CreatedAt := d.1 }, d.2)
  | .ThreadID => let d := decodeString v r.ThreadID; ({ r with ThreadID := d.1 }, d.2)
  | .AssistantID => let d := decodeString v r.AssistantID; ({ r with AssistantID := d.1 }, d.2)
  | .Status => let d := decodeString v r.Status; ({ r with Status := d.1 }, d.2)
  | .RequiredAction =>
    let d := decodeRequiredAction v r.RequiredAction
    ({ r with RequiredAction := d.1 }, d.2)
  | .LastError => let d := decodeLastError v r.LastError; ({ r with LastError := d.1 }, d.2)
  | .ExpiresAt => let d := decodeInt 32 v r.ExpiresAt; ({ r with ExpiresAt := d.1 }, d.2)
  | .StartedAt => let d := decodeInt 64 v r.StartedAt; ({ r with StartedAt := d.1 }, d.2)
  | .CancelledAt => let d := decodeInt 64 v r.CancelledAt; ({ r with CancelledAt := d.1 }, d.2)
  | .FailedAt => let d := decodeInt 64 v r.FailedAt; ({ r with FailedAt := d.1 }, d.2)
  | .CompletedAt => let d := decodeInt 64 v r.CompletedAt; ({ r with CompletedAt := d.1 }, d.2)
  | .Model => let d := decodeString v r.Model; ({ r with Model := d.1 }, d.2)
  | .Instructions =>
    let d := decodeString v r.Instructions
    ({ r with Instructions := d.1 }, d.2)
  | .Tools =>
    let d := decodeSlice decodeRunTool RunTool.zero "[]openai.RunTool" v r.Tools
    ({ r with Tools := d.1 }, d.2)
  | .FileIds =>
    let d := decodeSlice decodeString "" "[]string" v r.FileIds
    ({ r with FileIds := d.1 }, d.2)
  | .Metadata => let d := decodeMap v r.Metadata; ({ r with Metadata := d.1 }, d.2)

/-- Decoding a response body into a `Run` (`json.Unmarshal` on the parsed body). -/
def decodeRun : JSON → Run → Decoded Run :=
  decodeStruct (findField Run.fields) Run.store "openai.Run"

/-- Encoding of a `Function`. -/
def encodeFunction (x : Function) : JSON :=
  .obj [("name", .str x.Name), ("arguments", .str x.Arguments)]

/-- Encoding of a `RunToolCall`. -/
def encodeRunToolCall (x : RunToolCall) : JSON :=
  .obj [("id", .str x.ID), ("type", .str x.Type_), ("function", encodeFunction x.Function)]

/-- Encoding of a `SubmitToolOutputs`. -/
def encodeSubmitToolOutputs (x : SubmitToolOutputs) : JSON :=
  .obj [("tool_calls", encodeSlice encodeRunToolCall x.ToolCalls)]

/-- Encoding of a `RequiredAction`. -/
def encodeRequiredAction (x : RequiredAction) : JSON :=
  .obj [("type", .str x.Type_),
        ("submit_tool_outputs", encodeSubmitToolOutputs x.SubmitToolOutputs)]

/-- Encoding of a `RunTool`. -/
def encodeRunTool (x : RunTool) : JSON := .obj [("type", .str x.Type_)]

/-- Encoding of a `LastError`. -/
def encodeLastError (x : LastError) : JSON :=
  .obj [("code", .str x.Code), ("message", .str x.Message)]

/-- Encoding of a `Run` (`json.Marshal`): members in declaration order;
`omitempty` drops a zero `int64` timestamp and has no effect on the two struct
fields `required_action` and `last_error`. -/
def encodeRun (r : Run) : JSON :=
  .obj ([("id", .str r.ID), ("object", .str r.Object), ("created_at", .num r.CreatedAt),
         ("thread_id", .str r.ThreadID), ("assistant_id", .str r.AssistantID),
         ("status", .str r.Status),
         ("required_action", encodeRequiredAction r.RequiredAction),
         ("last_error", encodeLastError r.LastError),
         ("expires_at", .num r.ExpiresAt)]
        ++ omitEmptyInt "started_at" r.StartedAt
        ++ omitEmptyInt "cancelled_at" r.CancelledAt
        ++ omitEmptyInt "failed_at" r.FailedAt
        ++ omitEmptyInt "completed_at" r.CompletedAt
        ++ [("model", .str r.Model), ("instructions", .str r.Instructions),
            ("tools", encodeSlice encodeRunTool r.Tools),
            ("file_ids", encodeSlice JSON.str r.FileIds),
            ("metadata", encodeMap r.Metadata)])

/-- Fields of `ToolOutputs`. -/
inductive ToolOutputsField where
  | ToolCallID | Output
  deriving DecidableEq

/-- Tag names of `ToolOutputs`. -/
def ToolOutputs.fields : List (ToolOutputsField × String) :=
  [(.ToolCallID, "tool_call_id"), (.Output, "output")]

/-- Store a member value in a field of `ToolOutputs`. -/
def ToolOutputs.store (f : ToolOutputsField) (v : JSON) (x : ToolOutputs) :
    Decoded ToolOutputs :=
  match f with
  | .ToolCallID => let d := decodeString v x.ToolCallID; ({ x with ToolCallID := d.1 }, d.2)
  | .Output => let d := decodeString v x.Output; ({ x with Output := d.1 }, d.2)

/-- Decoding into a `ToolOutputs`. -/
def decodeToolOutputs : JSON → ToolOutputs → Decoded ToolOutputs :=
  decodeStruct (findField ToolOutputs.fields) ToolOutputs.store "openai.ToolOutputs"

/-- Fields of `ToolOutputsRequest`. -/
inductive ToolOutputsRequestField where
  | ToolOutputs
  deriving DecidableEq

/-- Tag names of `ToolOutputsRequest`. -/
def ToolOutputsRequest.fields : List (ToolOutputsRequestField × String) :=
  [(.ToolOutputs, "tool_outputs")]

/-- Store a member value in a field of `ToolOutputsRequest`. -/
def ToolOutputsRequest.store (f : ToolOutputsRequestField) (v : JSON)
    (x : ToolOutputsRequest) : Decoded ToolOutputsRequest :=
  match f with
  | .ToolOutputs =>
    let d := decodeSlice decodeToolOutputs ToolOutputs.zero "[]openai.ToolOutputs" v
      x.ToolOutputs
    ({ x with ToolOutputs := d.1 }, d.2)

/-- Decoding into a `ToolOutputsRequest`. -/
def decodeToolOutputsRequest : JSON → ToolOutputsRequest → Decoded ToolOutputsRequest :=
  decodeStruct (findField ToolOutputsRequest.fields) ToolOutputsRequest.store
    "openai.ToolOutputsRequest"

/-- Encoding of a `ToolOutputs`: both members carry `omitempty`. -/
def encodeToolOutputs (x : ToolOutputs) : JSON :=
  .obj (omitEmptyString "tool_call_id" x.ToolCallID ++ omitEmptyString "output" x.Output)

/-- Encoding of a `ToolOutputsRequest`, the body of `SubmitToolOutputs`. -/
def encodeToolOutputsRequest (x : ToolOutputsRequest) : JSON :=
  .obj [("tool_outputs", encodeSlice encodeToolOutputs x.ToolOutputs)]

/-! ## The record of `message.go` and its JSON binding -/

/-- `Message` of `message.go`; the tag of `AssistantID` is `string,omitempty`. -/
structure Message where
  ID : String
  Object : String
  Created : Int
  ThreadID : String
  Role : String
  AssistantID : String
  RunID : String
  FileIds : Option (List String)
  Metadata : Option (List (String × GoAny))
  httpHeader : Header

/-- Zero value of `Message`. -/
def Message.zero : Message where
  ID := ""
  Object := ""
  Created := 0
  ThreadID := ""
  Role := ""
  AssistantID := ""
  RunID := ""
  FileIds := none
  Metadata := none
  httpHeader := []

/-- Fields of `Message` that have a JSON member. -/
inductive MessageField where
  | ID | Object | Created | ThreadID | Role | AssistantID | RunID | FileIds | Metadata
  deriving DecidableEq

/-- Tag names of `Message`, in declaration order. -/
def Message.fields : List (MessageField × String) :=
  [(.ID, "id"), (.Object, "object"), (.Created, "created_at"), (.ThreadID, "thread_id"),
   (.Role, "role"), (.AssistantID, "string"), (.RunID, "run_id"), (.FileIds, "file_ids"),
   (.Metadata, "metadata")]

/-- Store a member value in a field of `Message`; `Created` is `int64`. -/
def Message.store (f : MessageField) (v : JSON) (m : Message) : Decoded Message :=
  match f with
  | .ID => let d := decodeString v m.ID; ({ m with ID := d.1 }, d.2)
  | .Object => let d := decodeString v m.Object; ({ m with Object := d.1 }, d.2)
  | .Created => let d := decodeInt 64 v m.Created; ({ m with Created := d.1 }, d.2)
  | .ThreadID => let d := decodeString v m.ThreadID; ({ m with ThreadID := d.1 }, d.2)
  | .Role => let d := decodeString v m.Role; ({ m with Role := d.1 }, d.2)
  | .AssistantID => let d := decodeString v m.AssistantID; ({ m with AssistantID := d.1 }, d.2)
  | .RunID => let d := decodeString v m.RunID; ({ m with RunID := d.1 }, d.2)
  | .FileIds =>
    let d := decodeSlice decodeString "" "[]string" v m.FileIds
    ({ m with FileIds := d.1 }, d.2)
  | .Metadata => let d := decodeMap v m.Metadata; ({ m with Metadata := d.1 }, d.2)

/-- Decoding into a `Message`. -/
def decodeMessage : JSON → Message → Decoded Message :=
  decodeStruct (findField Message.fields) Message.store "openai.Message"

/-- Encoding of a `Message`: members in declaration order. -/
def encodeMessage (m : Message) : JSON :=
  .obj ([("id", .str m.ID), ("object", .str m.Object), ("created_at", .num m.Created),
         ("thread_id", .str m.ThreadID), ("role", .str m.Role)]
        ++ omitEmptyString "string" m.AssistantID
        ++ omitEmptyString "run_id" m.RunID
        ++ [("file_ids", encodeSlice JSON.str m.FileIds),
            ("metadata", encodeMap m.Metadata)])

/-! ## Documents and their comparison -/

mutual
/-- Equality of JSON values up to the order of object members. -/
inductive JSON.Equiv : JSON → JSON → Prop
  | null : JSON.Equiv .null .null
  | bool (b : Bool) : JSON.Equiv (.bool b) (.bool b)
  | num (n : Int) : JSON.Equiv (.num n) (.num n)
  | str (s : String) : JSON.Equiv (.str s) (.str s)
  | arr {xs ys : List JSON} : JSON.EquivItems xs ys → JSON.Equiv (.arr xs) (.arr ys)
  | obj {ms ms1 ns1 ns : List (String × JSON)} :
      ms.Perm ms1 → JSON.EquivMembers ms1 ns1 → ns1.Perm ns → JSON.Equiv (.obj ms) (.obj ns)
/-- Item by item equality of two arrays. -/
inductive JSON.EquivItems : List JSON → List JSON → Prop
  | nil : JSON.EquivItems [] []
  | cons {x y : JSON} {xs ys : List JSON} :
      JSON.Equiv x y → JSON.EquivItems xs ys → JSON.EquivItems (x :: xs) (y :: ys)
/-- Member by member equality of two member lists: same keys, equal values. -/
inductive JSON.EquivMembers : List (String × JSON) → List (String × JSON) → Prop
  | nil : JSON.EquivMembers [] []
  | cons {k : String} {x y : JSON} {ms ns : List (String × JSON)} :
      JSON.Equiv x y → JSON.EquivMembers ms ns →
      JSON.EquivMembers ((k, x) :: ms) ((k, y) :: ns)
end

/-- The document is a string. -/
def isString : JSON → Bool
  | .str _ => true
  | _ => false

/-- The document is an integer that fits a signed integer of `bits` bits. -/
def isInt (bits : Nat) : JSON → Bool
  | .num n => decide (-(2 ^ (bits - 1) : Int) ≤ n ∧ n < (2 ^ (bits - 1) : Int))
  | _ => false

/-- The document is a non-zero integer that fits a signed integer of `bits` bits. -/
def isNonzeroInt (bits : Nat) : JSON → Bool
  | .num n => decide (n ≠ 0) && isInt bits (.num n)
  | _ => false

/-- The document is `null` or an array whose items all satisfy `p`. -/
def isSliceOf (p : JSON → Bool) : JSON → Bool
  | .null => true
  | .arr xs => xs.all p
  | _ => false

/-- The document is an object whose keys are exactly the given names, each
once and in any order, every value satisfying the predicate of its name. -/
def isObjectOf (fields : List (String × (JSON → Bool))) : JSON → Bool
  | .obj ms =>
    (ms.map Prod.fst).isPerm (fields.map Prod.fst) &&
      ms.all (fun m => match fields.lookup m.1 with
        | some p => p m.2
        | none => false)
  | _ => false

mutual
/-- A value that an `interface{}` holds exactly: no number beyond `2^53` in
magnitude, no repeated key inside an object. -/
def isPlain : JSON → Bool
  | .null => true
  | .bool _ => true
  | .num n => decide (n.natAbs ≤ 2 ^ 53)
  | .str _ => true
  | .arr xs => isPlainItems xs
  | .obj ms => isPlainMembers ms
/-- All items are plain. -/
def isPlainItems : List JSON → Bool
  | [] => true
  | x :: xs => isPlain x && isPlainItems xs
/-- All member values are plain and no key is repeated. -/
def isPlainMembers : List (String × JSON) → Bool
  | [] => true
  | (k, x) :: ms => isPlain x && !(ms.map Prod.fst).contains k && isPlainMembers ms
end

/-- The document is `null` or a plain object. -/
def isMetadataDoc : JSON → Bool
  | .null => true
  | .obj ms => isPlainMembers ms
  | _ => false

/-- Documents of a `Function`. -/
def isFunctionDoc : JSON → Bool :=
  isObjectOf [("name", isString), ("arguments", isString)]

/-- Documents of a tool call. -/
def isToolCallDoc : JSON → Bool :=
  isObjectOf [("id", isString), ("type", isString), ("function", isFunctionDoc)]

/-- Documents of a `SubmitToolOutputs`. -/
def isSubmitToolOutputsDoc : JSON → Bool :=
  isObjectOf [("tool_calls", isSliceOf isToolCallDoc)]

/-- Documents of a `RequiredAction`. -/
def isRequiredActionDoc : JSON → Bool :=
  isObjectOf [("type", isString), ("submit_tool_outputs", isSubmitToolOutputsDoc)]

/-- Documents of a `LastError`. -/
def isLastErrorDoc : JSON → Bool :=
  isObjectOf [("code", isString), ("message", isString)]

/-- Documents of a `RunTool`. -/
def isRunToolDoc : JSON → Bool := isObjectOf [("type", isString)]

/-- Documents that contain every documented member of a `Run`, each once, with
a value of the documented type; `optional` is what is asked of the four
timestamps `started_at`, `cancelled_at`, `failed_at` and `completed_at`. -/
def isRunDoc (optional : JSON → Bool) : JSON → Bool :=
  isObjectOf
    [("id", isString), ("object", isString), ("created_at", isInt 32),
     ("thread_id", isString), ("assistant_id", isString), ("status", isString),
     ("required_action", isRequiredActionDoc), ("last_error", isLastErrorDoc),
     ("expires_at", isInt 32), ("started_at", optional), ("cancelled_at", optional),
     ("failed_at", optional), ("completed_at", optional), ("model", isString),
     ("instructions", isString), ("tools", isSliceOf isRunToolDoc),
     ("file_ids", isSliceOf isString), ("metadata", isMetadataDoc)]

/-- The member is bound to one of the four optional timestamps selected by the
four flags. -/
def bindsOptional (started cancelled failed completed : Bool) (m : String × JSON) : Bool :=
  match findField Run.fields m.1 with
  | some .StartedAt => started
  | some .CancelledAt => cancelled
  | some .FailedAt => failed
  | some .CompletedAt => completed
  | _ => false

/-- The run with the selected optional timestamps put back to zero. -/
def Run.resetOptional (started cancelled failed completed : Bool) (r : Run) : Run :=
  { r with
    StartedAt := if started then 0 else r.StartedAt
    CancelledAt := if cancelled then 0 else r.CancelledAt
    FailedAt := if failed then 0 else r.FailedAt
    CompletedAt := if completed then 0 else r.CompletedAt }

/-- A transport whose request building succeeds and whose `sendRequest` decodes
the given response body into the destination. -/
def bodyClient (body : JSON) : Client Unit Unit UnmarshalTypeError Unit Run where
  fullURL := id
  newRequest := fun _ _ _ s => (.ok (), s)
  sendRequest := fun _ v s => (decodeRun body v, s)

/-- A transport whose `sendRequest` fails without touching the destination. -/
def failingClient : Client Unit Unit String Unit Run where
  fullURL := id
  newRequest := fun _ _ _ s => (.ok (), s)
  sendRequest := fun _ v s => ((v, some "404 Not Found"), s)

/-- The members of a document without those bound to the selected optional
timestamps. -/
def withoutOptional (started cancelled failed completed : Bool) (ms : List (String × JSON)) :
    List (String × JSON) :=
  ms.filter (fun m => !bindsOptional started cancelled failed completed m)

/-- What a tool call document says of a tool call: its `id`, and the `name`
and `arguments` of its `function`. -/
def CallOf (v : JSON) (x : ToolCall) : Prop :=
  v.lookup "id" = some (.str x.ID)
    ∧ (v.lookup "function").bind (JSON.lookup "name") = some (.str x.Function.Name)
    ∧ (v.lookup "function").bind (JSON.lookup "arguments") = some (.str x.Function.Arguments)

/-- The error of a decoder does not depend on what the destination holds. -/
def StateFree {α : Type} (dec : JSON → α → Decoded α) : Prop :=
  ∀ v x y, (dec v x).2 = (dec v y).2

/-- Stores into two different fields can be swapped. -/
def StoreCommutes {α φ : Type} (store : φ → JSON → α → Decoded α) : Prop :=
  ∀ f g, f ≠ g → ∀ u v x, (store g v (store f u x).1).1 = (store f u (store g v x).1).1

/-! ## Sample documents -/

/-- The body of a run created in the year 2100: `created_at` is past `2^31 - 1`. -/
def lateRunBody : JSON :=
  .obj [("id", .str "run_1"), ("created_at", .num 4102444800), ("status", .str "queued")]

/-- A run in progress: every documented member is present, `cancelled_at`,
`failed_at` and `completed_at` are zero. -/
def runningRunDoc : JSON :=
  .obj [("id", .str "run_1"), ("object", .str "thread.run"), ("created_at", .num 1699063290),
    ("thread_id", .str "thread_1"), ("assistant_id", .str "asst_1"),
    ("status", .str "in_progress"),
    ("required_action", .obj [("type", .str ""),
      ("submit_tool_outputs", .obj [("tool_calls", .arr [])])]),
    ("last_error", .obj [("code", .str ""), ("message", .str "")]),
    ("expires_at", .num 1699063890), ("started_at", .num 1699063291),
    ("cancelled_at", .num 0), ("failed_at", .num 0), ("completed_at", .num 0),
    ("model", .str "gpt-4"), ("instructions", .str "Be brief."),
    ("tools", .arr [.obj [("type", .str "retrieval")]]), ("file_ids", .arr [.str "file_1"]),
    ("metadata", .obj [("user", .str "u1"), ("attempt", .num 2)])]

/-- A run in which the four optional timestamps are set, with one pending tool
call whose arguments are empty; members in another order than the declaration
order. -/
def completeRunDoc : JSON :=
  .obj [("object", .str "thread.run"), ("id", .str "run_1"), ("created_at", .num 1699063290),
    ("thread_id", .str "thread_1"), ("assistant_id", .str "asst_1"),
    ("status", .str "completed"),
    ("required_action", .obj [
      ("submit_tool_outputs", .obj [("tool_calls", .arr [
        .obj [("function", .obj [("arguments", .str ""), ("name", .str "now")]),
              ("id", .str "call_1"), ("type", .str "function")]])]),
      ("type", .str "submit_tool_outputs")]),
    ("last_error", .obj [("code", .str ""), ("message", .str "")]),
    ("expires_at", .num 1699063890), ("started_at", .num 1699063291),
    ("cancelled_at", .num 1699063292), ("failed_at", .num 1699063293),
    ("completed_at", .num 1699063294),
    ("model", .str "gpt-4"), ("instructions", .str "Be brief."),
    ("tools", .arr [.obj [("type", .str "retrieval")]]), ("file_ids", .null),
    ("metadata", .obj [("user", .str "u1"), ("attempt", .num 2)])]

/-- The `required_action` member of a run waiting for two tool calls, the first
with empty arguments. -/
def pendingAction : JSON :=
  .obj [("type", .str "submit_tool_outputs"),
    ("submit_tool_outputs", .obj [("tool_calls", .arr [
      .obj [("id", .str "call_1"), ("type", .str "function"),
        ("function", .obj [("name", .str "now"), ("arguments", .str "")])],
      .obj [("id", .str "call_2"), ("type", .str "function"),
        ("function", .obj [("name", .str "add"), ("arguments", .str "[1, 2]")])]])])]

/-- The member is one of the four optional timestamps with the value zero, which
`omitempty` leaves out of the encoding. -/
def isZeroOptional (m : String × JSON) : Bool :=
  (m.1 == "started_at" || m.1 == "cancelled_at" || m.1 == "failed_at"
      || m.1 == "completed_at")
    && (match m.2 with
      | .num n => decide (n = 0)
      | _ => false)

/-- The document without its zero optional timestamps. -/
def dropZeroOptional : JSON → JSON
  | .obj ms => .obj (ms.filter (fun m => !isZeroOptional m))
  | v => v

set_option exponentiation.threshold 2000

/-! ## Paths, methods and headers -/

theorem sprintf3 (a b c : String) :
    Sprintf "%s/%s/%s" [a, b, c] = a ++ "/" ++ b ++ "/" ++ c := by
  apply String.ext
  simp [Sprintf, sprintfAux]

theorem sprintf4 (a b c d : String) :
    Sprintf "%s/%s/%s/%s" [a, b, c, d] = a ++ "/" ++ b ++ "/" ++ c ++ "/" ++ d := by
  apply String.ext
  simp [Sprintf, sprintfAux]

theorem sprintf5 (a b c d e : String) :
    Sprintf "%s/%s/%s/%s/%s" [a, b, c, d, e]
      = a ++ "/" ++ b ++ "/" ++ c ++ "/" ++ d ++ "/" ++ e := by
  apply String.ext
  simp [Sprintf, sprintfAux]

theorem append_ne_of_data {p a b : String} (h : a.data ≠ b.data) : p ++ a ≠ p ++ b := by
  intro e
  have := congrArg String.data e
  simp at this
  exact h this

theorem canonical_beta : CanonicalMIMEHeaderKey "OpenAI-Beta" = "Openai-Beta" := by decide

theorem betaHeader_values {β : Type} (args : requestOptions β) :
    (betaHeader args).header.Values "OpenAI-Beta" = ["assistants=v1"] := by
  simp [betaHeader, Header.Values, Header.Set, List.lookup]

theorem betaHeader_get {β : Type} (args : requestOptions β) :
    (betaHeader args).header.Get "OpenAI-Beta" = "assistants=v1" := by
  simp [Header.Get, betaHeader_values]

section OperationTheorems

variable {σ Req Err β ρ : Type}

/-- C1: the path and method each operation hands to the transport. The methods
are the documented ones; every path has an empty segment after the thread
identifier (`/threads/{threadID}//messages`, `/threads/{threadID}//runs...`), so
none is the documented path `threadsSuffix + "/" + threadID + "/messages"`,
`... + "/runs"`, `... + "/runs/" + runID`,
`... + "/runs/" + runID + "/submit_tool_outputs"`. -/
theorem C1_paths_have_empty_segment (c : Client σ Req Err β ρ) (zero : ρ)
    (threadID runID : String) (request : β) (s : σ) :
    ((c.logged.CreateMessage zero threadID request (s, [])).2.2.head?
        = some (Call.newRequest "POST" (c.fullURL ("/threads/" ++ threadID ++ "//messages"))
            [withBody request])
      ∧ "/threads/" ++ threadID ++ "//messages" ≠ threadsSuffix ++ "/" ++ threadID ++ "/messages")
    ∧ ((c.logged.CreateRun zero threadID request (s, [])).2.2.head?
        = some (Call.newRequest "POST" (c.fullURL ("/threads/" ++ threadID ++ "//runs"))
            [withBody request, betaHeader])
      ∧ "/threads/" ++ threadID ++ "//runs" ≠ threadsSuffix ++ "/" ++ threadID ++ "/runs")
    ∧ ((c.logged.RetrieveRun zero threadID runID (s, [])).2.2.head?
        = some (Call.newRequest "GET"
            (c.fullURL ("/threads/" ++ threadID ++ "//runs/" ++ runID)) [betaHeader])
      ∧ "/threads/" ++ threadID ++ "//runs/" ++ runID
          ≠ threadsSuffix ++ "/" ++ threadID ++ "/runs/" ++ runID)
    ∧ ((c.logged.SubmitToolOutputs zero threadID runID request (s, [])).2.2.head?
        = some (Call.newRequest "POST"
            (c.fullURL ("/threads/" ++ threadID ++ "//runs/" ++ runID ++ "/submit_tool_outputs"))
            [withBody request, betaHeader])
      ∧ "/threads/" ++ threadID ++ "//runs/" ++ runID ++ "/submit_tool_outputs"
          ≠ threadsSuffix ++ "/" ++ threadID ++ "/runs/" ++ runID ++ "/submit_tool_outputs") := by
  refine ⟨⟨?_, ?_⟩, ⟨?_, ?_⟩, ⟨?_, ?_⟩, ⟨?_, ?_⟩⟩
  · simp only [Client.CreateMessage, Client.logged, sprintf3]
    rcases h : c.newRequest MethodPost
      (c.fullURL (threadsSuffix ++ "/" ++ threadID ++ "/" ++ messages)) [withBody request] s
      with ⟨r, s1⟩
    cases r <;> simp [MethodPost, threadsSuffix, messages, String.append_assoc]
  · simp only [threadsSuffix, String.append_assoc]
    exact append_ne_of_data (by simp)
  · simp only [Client.CreateRun, Client.logged, sprintf3]
    rcases h : c.newRequest MethodPost
      (c.fullURL (threadsSuffix ++ "/" ++ threadID ++ "/" ++ runs))
      [withBody request, betaHeader] s with ⟨r, s1⟩
    cases r <;> simp [MethodPost, threadsSuffix, runs, String.append_assoc]
  · simp only [threadsSuffix, String.append_assoc]
    exact append_ne_of_data (by simp)
  · simp only [Client.RetrieveRun, Client.logged, sprintf4]
    rcases h : c.newRequest MethodGet
      (c.fullURL (threadsSuffix ++ "/" ++ threadID ++ "/" ++ runs ++ "/" ++ runID))
      [betaHeader] s with ⟨r, s1⟩
    cases r <;> simp [MethodGet, threadsSuffix, runs, String.append_assoc]
  · simp only [threadsSuffix, String.append_assoc]
    exact append_ne_of_data (by simp)
  · simp only [Client.SubmitToolOutputs, Client.logged, sprintf5]
    rcases h : c.newRequest MethodPost
      (c.fullURL (threadsSuffix ++ "/" ++ threadID ++ "/" ++ runs ++ "/" ++ runID ++ "/"
        ++ submitToolOutputs))
      [withBody request, betaHeader] s with ⟨r, s1⟩
    cases r <;> simp [MethodPost, threadsSuffix, runs, submitToolOutputs, String.append_assoc]
  · simp only [threadsSuffix, String.append_assoc]
    exact append_ne_of_data (by simp)

/-- C2: whatever the options held before, the options that `CreateRun`,
`RetrieveRun` and `SubmitToolOutputs` pass to `newRequest` leave the header
`OpenAI-Beta` with the single value `assistants=v1`; `CreateMessage` passes the
body option only, which leaves the header as it was. -/
theorem C2_beta_header (c : Client σ Req Err β ρ) (zero : ρ) (threadID runID : String)
    (request : β) (s : σ) (args : requestOptions β) :
    ((applyOptions (loggedSetters (c.logged.CreateRun zero threadID request (s, [])).2.2)
          args).header.Values "OpenAI-Beta" = ["assistants=v1"]
      ∧ (applyOptions (loggedSetters (c.logged.CreateRun zero threadID request (s, [])).2.2)
          args).header.Get "OpenAI-Beta" = "assistants=v1")
    ∧ ((applyOptions (loggedSetters (c.logged.RetrieveRun zero threadID runID (s, [])).2.2)
          args).header.Values "OpenAI-Beta" = ["assistants=v1"]
      ∧ (applyOptions (loggedSetters (c.logged.RetrieveRun zero threadID runID (s, [])).2.2)
          args).header.Get "OpenAI-Beta" = "assistants=v1")
    ∧ ((applyOptions
          (loggedSetters (c.logged.SubmitToolOutputs zero threadID runID request (s, [])).2.2)
          args).header.Values "OpenAI-Beta" = ["assistants=v1"]
      ∧ (applyOptions
          (loggedSetters (c.logged.SubmitToolOutputs zero threadID runID request (s, [])).2.2)
          args).header.Get "OpenAI-Beta" = "assistants=v1")
    ∧ (loggedSetters (c.logged.CreateMessage zero threadID request (s, [])).2.2
          = [withBody request]
      ∧ (applyOptions (loggedSetters (c.logged.CreateMessage zero threadID request (s, [])).2.2)
          args).header = args.header) := by
  refine ⟨?_, ?_, ?_, ?_⟩
  · simp only [Client.CreateRun, Client.logged]
    rcases h : c.newRequest MethodPost
      (c.fullURL (Sprintf "%s/%s/%s" [threadsSuffix, threadID, runs]))
      [withBody request, betaHeader] s with ⟨r, s1⟩
    cases r <;>
      simp [loggedSetters, applyOptions, betaHeader_values, betaHeader_get]
  · simp only [Client.RetrieveRun, Client.logged]
    rcases h : c.newRequest MethodGet
      (c.fullURL (Sprintf "%s/%s/%s/%s" [threadsSuffix, threadID, runs, runID]))
      [betaHeader] s with ⟨r, s1⟩
    cases r <;>
      simp [loggedSetters, applyOptions, betaHeader_values, betaHeader_get]
  · simp only [Client.SubmitToolOutputs, Client.logged]
    rcases h : c.newRequest MethodPost
      (c.fullURL (Sprintf "%s/%s/%s/%s/%s"
        [threadsSuffix, threadID, runs, runID, submitToolOutputs]))
      [withBody request, betaHeader] s with ⟨r, s1⟩
    cases r <;>
      simp [loggedSetters, applyOptions, betaHeader_values, betaHeader_get]
  · simp only [Client.CreateMessage, Client.logged]
    rcases h : c.newRequest MethodPost
      (c.fullURL (Sprintf "%s/%s/%s" [threadsSuffix, threadID, messages]))
      [withBody request] s with ⟨r, s1⟩
    cases r <;> simp [loggedSetters, applyOptions, withBody]

/-- C5: each operation is a single attempt. When `newRequest` fails,
`sendRequest` is not called and the error returned is the one of `newRequest`;
when it succeeds, `sendRequest` is called once, on the built request, and the
error returned is the one of `sendRequest`. -/
theorem C5_single_attempt (c : Client σ Req Err β ρ) (zero : ρ) (threadID runID : String)
    (request : β) (s : σ) :
    (∀ method url setters,
      sendCount (singleAttempt c zero method url setters s).2.2
          = (match (c.newRequest method url setters s).1 with
            | .error _ => 0
            | .ok _ => 1)
      ∧ (singleAttempt c zero method url setters s).1.2
          = (match c.newRequest method url setters s with
            | (.error err, _) => some err
            | (.ok req, s1) => (c.sendRequest req zero s1).1.2)
      ∧ (singleAttempt c zero method url setters s).2.2
          = (match (c.newRequest method url setters s).1 with
            | .error _ => [Call.newRequest method url setters]
            | .ok req => [Call.newRequest method url setters, Call.sendRequest req]))
    ∧ c.logged.CreateMessage zero threadID request (s, [])
        = singleAttempt c zero MethodPost
            (c.fullURL (Sprintf "%s/%s/%s" [threadsSuffix, threadID, messages]))
            [withBody request] s
    ∧ c.logged.CreateRun zero threadID request (s, [])
        = singleAttempt c zero MethodPost
            (c.fullURL (Sprintf "%s/%s/%s" [threadsSuffix, threadID, runs]))
            [withBody request, betaHeader] s
    ∧ c.logged.RetrieveRun zero threadID runID (s, [])
        = singleAttempt c zero MethodGet
            (c.fullURL (Sprintf "%s/%s/%s/%s" [threadsSuffix, threadID, runs, runID]))
            [betaHeader] s
    ∧ c.logged.SubmitToolOutputs zero threadID runID request (s, [])
        = singleAttempt c zero MethodPost
            (c.fullURL (Sprintf "%s/%s/%s/%s/%s"
              [threadsSuffix, threadID, runs, runID, submitToolOutputs]))
            [withBody request, betaHeader] s := by
  refine ⟨?_, ?_, ?_, ?_, ?_⟩
  · intro method url setters
    rcases h : c.newRequest method url setters s with ⟨r, s1⟩
    cases r <;> simp [singleAttempt, h, sendCount]
  · simp only [Client.CreateMessage, Client.logged, singleAttempt]
    rcases h : c.newRequest MethodPost
      (c.fullURL (Sprintf "%s/%s/%s" [threadsSuffix, threadID, messages]))
      [withBody request] s with ⟨r, s1⟩
    cases r <;> simp
  · simp only [Client.CreateRun, Client.logged, singleAttempt]
    rcases h : c.newRequest MethodPost
      (c.fullURL (Sprintf "%s/%s/%s" [threadsSuffix, threadID, runs]))
      [withBody request, betaHeader] s with ⟨r, s1⟩
    cases r <;> simp
  · simp only [Client.RetrieveRun, Client.logged, singleAttempt]
    rcases h : c.newRequest MethodGet
      (c.fullURL (Sprintf "%s/%s/%s/%s" [threadsSuffix, threadID, runs, runID]))
      [betaHeader] s with ⟨r, s1⟩
    cases r <;> simp
  · simp only [Client.SubmitToolOutputs, Client.logged, singleAttempt]
    rcases h : c.newRequest MethodPost
      (c.fullURL (Sprintf "%s/%s/%s/%s/%s"
        [threadsSuffix, threadID, runs, runID, submitToolOutputs]))
      [withBody request, betaHeader] s with ⟨r, s1⟩
    cases r <;> simp

/-- C4 (amended): each of the four operations returns the zero value with the
error of `newRequest` when `newRequest` fails, and otherwise returns exactly
what its one `sendRequest` call left in the destination (zero before the call)
together with the error of that call: the operation never resets the
destination. So with a transport whose `sendRequest` leaves a zero destination
at zero whenever it fails, every error comes with the zero value. -/
theorem C4_response_is_what_send_left (c : Client σ Req Err β ρ) (zero : ρ)
    (threadID runID : String) (request : β) (s : σ) :
    (match c.newRequest MethodPost
        (c.fullURL (Sprintf "%s/%s/%s" [threadsSuffix, threadID, messages]))
        [withBody request] s with
      | (.error err, _) => (c.CreateMessage zero threadID request s).1 = (zero, some err)
      | (.ok req, s1) =>
        (c.CreateMessage zero threadID request s).1 = (c.sendRequest req zero s1).1)
    ∧ (match c.newRequest MethodPost
        (c.fullURL (Sprintf "%s/%s/%s" [threadsSuffix, threadID, runs]))
        [withBody request, betaHeader] s with
      | (.error err, _) => (c.CreateRun zero threadID request s).1 = (zero, some err)
      | (.ok req, s1) =>
        (c.CreateRun zero threadID request s).1 = (c.sendRequest req zero s1).1)
    ∧ (match c.newRequest MethodGet
        (c.fullURL (Sprintf "%s/%s/%s/%s" [threadsSuffix, threadID, runs, runID]))
        [betaHeader] s with
      | (.error err, _) => (c.RetrieveRun zero threadID runID s).1 = (zero, some err)
      | (.ok req, s1) =>
        (c.RetrieveRun zero threadID runID s).1 = (c.sendRequest req zero s1).1)
    ∧ (match c.newRequest MethodPost
        (c.fullURL (Sprintf "%s/%s/%s/%s/%s"
          [threadsSuffix, threadID, runs, runID, submitToolOutputs]))
        [withBody request, betaHeader] s with
      | (.error err, _) =>
        (c.SubmitToolOutputs zero threadID runID request s).1 = (zero, some err)
      | (.ok req, s1) =>
        (c.SubmitToolOutputs zero threadID runID request s).1 = (c.sendRequest req zero s1).1)
    ∧ ((∀ req s1, (c.sendRequest req zero s1).1.2 ≠ none → (c.sendRequest req zero s1).1.1 = zero) →
        ((c.CreateMessage zero threadID request s).1.2 ≠ none →
          (c.CreateMessage zero threadID request s).1.1 = zero)
        ∧ ((c.CreateRun zero threadID request s).1.2 ≠ none →
          (c.CreateRun zero threadID request s).1.1 = zero)
        ∧ ((c.RetrieveRun zero threadID runID s).1.2 ≠ none →
          (c.RetrieveRun zero threadID runID s).1.1 = zero)
        ∧ ((c.SubmitToolOutputs zero threadID runID request s).1.2 ≠ none →
          (c.SubmitToolOutputs zero threadID runID request s).1.1 = zero)) := by
  refine ⟨?_, ?_, ?_, ?_, ?_⟩
  · simp only [Client.CreateMessage]
    rcases c.newRequest MethodPost
      (c.fullURL (Sprintf "%s/%s/%s" [threadsSuffix, threadID, messages]))
      [withBody request] s with ⟨r, s1⟩
    cases r <;> rfl
  · simp only [Client.CreateRun]
    rcases c.newRequest MethodPost
      (c.fullURL (Sprintf "%s/%s/%s" [threadsSuffix, threadID, runs]))
      [withBody request, betaHeader] s with ⟨r, s1⟩
    cases r <;> rfl
  · simp only [Client.RetrieveRun]
    rcases c.newRequest MethodGet
      (c.fullURL (Sprintf "%s/%s/%s/%s" [threadsSuffix, threadID, runs, runID]))
      [betaHeader] s with ⟨r, s1⟩
    cases r <;> rfl
  · simp only [Client.SubmitToolOutputs]
    rcases c.newRequest MethodPost
      (c.fullURL (Sprintf "%s/%s/%s/%s/%s"
        [threadsSuffix, threadID, runs, runID, submitToolOutputs]))
      [withBody request, betaHeader] s with ⟨r, s1⟩
    cases r <;> rfl
  · intro hkeep
    refine ⟨?_, ?_, ?_, ?_⟩
    · simp only [Client.CreateMessage]
      rcases c.newRequest MethodPost
        (c.fullURL (Sprintf "%s/%s/%s" [threadsSuffix, threadID, messages]))
        [withBody request] s with ⟨r, s1⟩
      cases r
      · simp
      · exact hkeep _ _
    · simp only [Client.CreateRun]
      rcases c.newRequest MethodPost
        (c.fullURL (Sprintf "%s/%s/%s" [threadsSuffix, threadID, runs]))
        [withBody request, betaHeader] s with ⟨r, s1⟩
      cases r
      · simp
      · exact hkeep _ _
    · simp only [Client.RetrieveRun]
      rcases c.newRequest MethodGet
        (c.fullURL (Sprintf "%s/%s/%s/%s" [threadsSuffix, threadID, runs, runID]))
        [betaHeader] s with ⟨r, s1⟩
      cases r
      · simp
      · exact hkeep _ _
    · simp only [Client.SubmitToolOutputs]
      rcases c.newRequest MethodPost
        (c.fullURL (Sprintf "%s/%s/%s/%s/%s"
          [threadsSuffix, threadID, runs, runID, submitToolOutputs]))
        [withBody request, betaHeader] s with ⟨r, s1⟩
      cases r
      · simp
      · exact hkeep _ _

end OperationTheorems

/-- C4 (counterexample): `RetrieveRun` over a transport that decodes the body
`lateRunBody` returns the type error of `created_at` together with a run whose
`ID` and `Status` are filled, not the zero value. -/
theorem C4_counterexample :
    ((bodyClient lateRunBody).RetrieveRun Run.zero "thread_1" "run_1" ()).1.2
        = some ⟨"number 4102444800", "int32"⟩
    ∧ ((bodyClient lateRunBody).RetrieveRun Run.zero "thread_1" "run_1" ()).1.1.ID = "run_1"
    ∧ ((bodyClient lateRunBody).RetrieveRun Run.zero "thread_1" "run_1" ()).1.1.Status = "queued"
    ∧ ((bodyClient lateRunBody).RetrieveRun Run.zero "thread_1" "run_1" ()).1.1 ≠ Run.zero := by
  refine ⟨by decide, by decide, by decide, ?_⟩
  intro h
  have := congrArg Run.ID h
  revert this
  decide

/-- C4 (witness): over the transport that decodes `lateRunBody`, `RetrieveRun`
returns what the decoder left, error included; over a transport that fails
without touching the destination it returns the zero value. -/
theorem C4_response_is_what_send_left_witness :
    ((bodyClient lateRunBody).RetrieveRun Run.zero "thread_1" "run_1" ()).1
        = decodeRun lateRunBody Run.zero
    ∧ ((failingClient.RetrieveRun Run.zero "thread_1" "run_404" ()).1.2 ≠ none →
        (failingClient.RetrieveRun Run.zero "thread_1" "run_404" ()).1.1 = Run.zero) :=
  ⟨(C4_response_is_what_send_left (bodyClient lateRunBody) Run.zero "thread_1" "run_1" ()
      ()).2.2.1,
    ((C4_response_is_what_send_left failingClient Run.zero "thread_1" "run_404" () ()).2.2.2.2
      (fun _ _ _ => rfl)).2.2.1⟩

/-! ## Generic facts on the decoder -/

theorem lookup_of_mem {β : Type} (ms : List (String × β)) (hnd : (ms.map Prod.fst).Nodup)
    (k : String) (v : β) (h : (k, v) ∈ ms) : ms.lookup k = some v := by
  induction ms with
  | nil => simp at h
  | cons m ms ih =>
    rcases m with ⟨k1, v1⟩
    simp only [List.map_cons, List.nodup_cons] at hnd
    rcases List.mem_cons.1 h with h1 | h2
    · cases h1
      simp [List.lookup]
    · have hne : k ≠ k1 := by
        intro he
        exact hnd.1 (List.mem_map.2 ⟨(k, v), h2, he⟩)
      have : (k == k1) = false := by simpa using hne
      simp [List.lookup, this, ih hnd.2 h2]

theorem map_lookup_self (ms : List (String × JSON)) (hnd : (ms.map Prod.fst).Nodup) :
    (ms.map Prod.fst).map (fun k => (k, (ms.lookup k).getD JSON.null)) = ms := by
  rw [List.map_map]
  conv_rhs => rw [← List.map_id ms]
  apply List.map_congr_left
  rintro ⟨k, v⟩ hm
  simp [lookup_of_mem ms hnd k v hm]

/-- A conforming object is, up to member order, the list of its documented
members, each with a value satisfying the predicate of its name. -/
theorem isObjectOf_perm (flds : List (String × (JSON → Bool)))
    (hnd : (flds.map Prod.fst).Nodup) (ms : List (String × JSON))
    (h : isObjectOf flds (.obj ms) = true) :
    (flds.map (fun f => (f.1, (ms.lookup f.1).getD JSON.null))).Perm ms
    ∧ ∀ f ∈ flds, ∃ v, ms.lookup f.1 = some v ∧ f.2 v = true := by
  simp only [isObjectOf, Bool.and_eq_true, List.isPerm_iff, List.all_eq_true] at h
  obtain ⟨hp, hall⟩ := h
  have hkeys : (ms.map Prod.fst).Nodup := hp.nodup_iff.2 hnd
  constructor
  · have h1 := List.Perm.map (fun k => (k, (ms.lookup k).getD JSON.null)) hp
    rw [map_lookup_self ms hkeys, List.map_map] at h1
    exact h1.symm
  · intro f hf
    have hk : f.1 ∈ ms.map Prod.fst := hp.mem_iff.2 (List.mem_map.2 ⟨f, hf, rfl⟩)
    obtain ⟨m, hm, hmk⟩ := List.mem_map.1 hk
    refine ⟨m.2, ?_, ?_⟩
    · rw [← hmk]
      exact lookup_of_mem ms hkeys m.1 m.2 hm
    · have := hall m hm
      rw [hmk, lookup_of_mem flds hnd f.1 f.2 hf] at this
      exact this

section GenericOrder
variable {α φ : Type} (find : String → Option φ) (store : φ → JSON → α → Decoded α)

/-- Decoding does not depend on the order of members bound to different
fields and free of errors. -/
theorem foldl_decodeMember_perm (hcomm : StoreCommutes store)
    (L ms : List (String × JSON)) (hp : L.Perm ms)
    (hnd : (L.map (fun x => find x.1)).Nodup)
    (herr : ∀ x ∈ L, ∀ f, find x.1 = some f → ∀ z, (store f x.2 z).2 = none)
    (acc : Decoded α) :
    ms.foldl (decodeMember find store) acc = L.foldl (decodeMember find store) acc := by
  symm
  apply List.Perm.foldl_eq' hp
  intro x hx y hy z
  by_cases hxy : x = y
  · rw [hxy]
  · have hne : find x.1 ≠ find y.1 := by
      intro he
      exact hxy (List.inj_on_of_nodup_map hnd hx hy he)
    cases hfx : find x.1 with
    | none =>
      cases hfy : find y.1 <;> simp [decodeMember, hfx, hfy]
    | some f =>
      cases hfy : find y.1 with
      | none => simp [decodeMember, hfx, hfy]
      | some g =>
        have hfg : f ≠ g := by
          rintro rfl
          exact hne (hfx.trans hfy.symm)
        simp only [decodeMember, hfx, hfy, herr x hx f hfx, herr y hy g hfy, Option.or_none]
        rw [hcomm f g hfg]

end GenericOrder

/-- Items that decode in full, whatever the destination holds. -/
theorem decodeElems_full {α : Type} (dec : JSON → α → Decoded α) (zero : α)
    (R : JSON → α → Prop) (items : List JSON)
    (h : ∀ v ∈ items, ∃ x, (∀ cur, dec v cur = (x, none)) ∧ R v x) :
    ∃ xs, (∀ cur, decodeElems dec zero items cur = (xs, none)) ∧ List.Forall₂ R items xs := by
  induction items with
  | nil => exact ⟨[], fun _ => by simp [decodeElems], List.Forall₂.nil⟩
  | cons v vs ih =>
    obtain ⟨x, hx, hr⟩ := h v (List.mem_cons_self _ _)
    obtain ⟨xs, hxs, hrs⟩ := ih (fun w hw => h w (List.mem_cons_of_mem _ hw))
    exact ⟨x :: xs, fun cur => by simp [decodeElems, hx, hxs], List.Forall₂.cons hr hrs⟩

theorem equivItems_of_forall₂ {α : Type} (enc : α → JSON) (items : List JSON) (xs : List α)
    (h : List.Forall₂ (fun v x => JSON.Equiv (enc x) v) items xs) :
    JSON.EquivItems (xs.map enc) items := by
  induction h with
  | nil => exact JSON.EquivItems.nil
  | cons h1 _ ih => exact JSON.EquivItems.cons h1 ih

theorem isString_eq {v : JSON} (h : isString v = true) : ∃ s, v = .str s := by
  cases v <;> simp [isString] at h
  exact ⟨_, rfl⟩

section GenericErrors
variable {α φ : Type} (find : String → Option φ) (store : φ → JSON → α → Decoded α)

theorem foldl_decodeMember_err (ms : List (String × JSON)) (x : α)
    (e : Option UnmarshalTypeError) :
    ms.foldl (decodeMember find store) (x, e)
      = ((ms.foldl (decodeMember find store) (x, none)).1,
          e.or (ms.foldl (decodeMember find store) (x, none)).2) := by
  induction ms generalizing x e with
  | nil => simp
  | cons m ms ih =>
    simp only [List.foldl_cons]
    rw [ih (decodeMember find store (x, e) m).1 (decodeMember find store (x, e) m).2,
      ih (decodeMember find store (x, none) m).1 (decodeMember find store (x, none) m).2]
    cases hf : find m.1 <;> simp [decodeMember, hf, Option.or_assoc]

theorem foldl_decodeMember_stateFree (h : ∀ f, StateFree (store f))
    (ms : List (String × JSON)) (x y : α) (e : Option UnmarshalTypeError) :
    (ms.foldl (decodeMember find store) (x, e)).2
      = (ms.foldl (decodeMember find store) (y, e)).2 := by
  induction ms generalizing x y e with
  | nil => simp
  | cons m ms ih =>
    simp only [List.foldl_cons]
    cases hf : find m.1 with
    | none => simpa [decodeMember, hf] using ih x y e
    | some f =>
      simp only [decodeMember, hf]
      rw [h f m.2 x y]
      exact ih _ _ _

theorem decodeStruct_stateFree (h : ∀ f, StateFree (store f)) (tname : String) :
    StateFree (decodeStruct find store tname) := by
  intro v x y
  cases v <;> simp [decodeStruct]
  exact foldl_decodeMember_stateFree find store h _ x y none

/-- Error of a document with one more member. -/
theorem decodeStruct_insert_err (h : ∀ f, StateFree (store f)) (tname : String)
    (pre post : List (String × JSON)) (m : String × JSON) (z : α) :
    (decodeStruct find store tname (.obj (pre ++ m :: post)) z).2 = none
      ↔ (decodeStruct find store tname (.obj (pre ++ post)) z).2 = none
        ∧ (decodeMember find store (z, none) m).2 = none := by
  simp only [decodeStruct, List.foldl_append, List.foldl_cons]
  rw [foldl_decodeMember_err find store post, foldl_decodeMember_err find store post
    (List.foldl (decodeMember find store) (z, none) pre).1]
  have hm : (decodeMember find store (List.foldl (decodeMember find store) (z, none) pre) m).2
      = (List.foldl (decodeMember find store) (z, none) pre).2.or
          (decodeMember find store (z, none) m).2 := by
    cases hf : find m.1 with
    | none => simp [decodeMember, hf]
    | some f => simp [decodeMember, hf, h f m.2 _ z]
  rw [hm, foldl_decodeMember_stateFree find store h post
    (decodeMember find store (List.foldl (decodeMember find store) (z, none) pre) m).1
    (List.foldl (decodeMember find store) (z, none) pre).1 none]
  simp only [Option.or_eq_none]
  tauto

end GenericErrors

theorem decodeString_stateFree : StateFree decodeString := by
  intro v x y
  cases v <;> simp [decodeString]

theorem decodeInt_stateFree (bits : Nat) : StateFree (decodeInt bits) := by
  intro v x y
  cases v <;> simp [decodeInt]
  split <;> simp

theorem decodeElems_stateFree {α : Type} {dec : JSON → α → Decoded α} (h : StateFree dec)
    (zero : α) (items : List JSON) (x y : List α) :
    (decodeElems dec zero items x).2 = (decodeElems dec zero items y).2 := by
  induction items generalizing x y with
  | nil => simp [decodeElems]
  | cons v vs ih =>
    simp only [decodeElems]
    rw [h v (x.headD zero) (y.headD zero), ih x.tail y.tail]

theorem decodeSlice_stateFree {α : Type} {dec : JSON → α → Decoded α} (h : StateFree dec)
    (zero : α) (tname : String) : StateFree (decodeSlice dec zero tname) := by
  intro v x y
  cases v <;> simp [decodeSlice]
  exact decodeElems_stateFree h zero _ _ _

theorem decodeMap_stateFree : StateFree decodeMap := by
  intro v x y
  cases v <;> simp [decodeMap]

theorem decodeFunction_stateFree : StateFree decodeFunction :=
  decodeStruct_stateFree _ _ (fun f => by
    intro v x y
    cases f <;> simp [Function.store, decodeString_stateFree v x.Name y.Name,
      decodeString_stateFree v x.Arguments y.Arguments]) _

theorem decodeRunToolCall_stateFree : StateFree decodeRunToolCall :=
  decodeStruct_stateFree _ _ (fun f => by
    intro v x y
    cases f <;> simp [RunToolCall.store, decodeString_stateFree v x.ID y.ID,
      decodeString_stateFree v x.Type_ y.Type_,
      decodeFunction_stateFree v x.Function y.Function]) _

theorem decodeSubmitToolOutputs_stateFree : StateFree decodeSubmitToolOutputs :=
  decodeStruct_stateFree _ _ (fun f => by
    intro v x y
    cases f
    simp [SubmitToolOutputs.store,
      decodeSlice_stateFree decodeRunToolCall_stateFree RunToolCall.zero _ v x.ToolCalls
        y.ToolCalls]) _

theorem decodeRequiredAction_stateFree : StateFree decodeRequiredAction :=
  decodeStruct_stateFree _ _ (fun f => by
    intro v x y
    cases f <;> simp [RequiredAction.store, decodeString_stateFree v x.Type_ y.Type_,
      decodeSubmitToolOutputs_stateFree v x.SubmitToolOutputs y.SubmitToolOutputs]) _

theorem decodeRunTool_stateFree : StateFree decodeRunTool :=
  decodeStruct_stateFree _ _ (fun f => by
    intro v x y
    cases f
    simp [RunTool.store, decodeString_stateFree v x.Type_ y.Type_]) _

theorem decodeLastError_stateFree : StateFree decodeLastError :=
  decodeStruct_stateFree _ _ (fun f => by
    intro v x y
    cases f <;> simp [LastError.store, decodeString_stateFree v x.Code y.Code,
      decodeString_stateFree v x.Message y.Message]) _

theorem run_store_stateFree (f : RunField) : StateFree (Run.store f) := by
  intro v x y
  cases f <;> simp only [Run.store]
  · exact decodeString_stateFree v _ _
  · exact decodeString_stateFree v _ _
  · exact decodeInt_stateFree 32 v _ _
  · exact decodeString_stateFree v _ _
  · exact decodeString_stateFree v _ _
  · exact decodeString_stateFree v _ _
  · exact decodeRequiredAction_stateFree v _ _
  · exact decodeLastError_stateFree v _ _
  · exact decodeInt_stateFree 32 v _ _
  · exact decodeInt_stateFree 64 v _ _
  · exact decodeInt_stateFree 64 v _ _
  · exact decodeInt_stateFree 64 v _ _
  · exact decodeInt_stateFree 64 v _ _
  · exact decodeString_stateFree v _ _
  · exact decodeString_stateFree v _ _
  · exact decodeSlice_stateFree decodeRunTool_stateFree _ _ v _ _
  · exact decodeSlice_stateFree decodeString_stateFree _ _ v _ _
  · exact decodeMap_stateFree v _ _

theorem message_store_stateFree (f : MessageField) : StateFree (Message.store f) := by
  intro v x y
  cases f <;> simp only [Message.store]
  · exact decodeString_stateFree v _ _
  · exact decodeString_stateFree v _ _
  · exact decodeInt_stateFree 64 v _ _
  · exact decodeString_stateFree v _ _
  · exact decodeString_stateFree v _ _
  · exact decodeString_stateFree v _ _
  · exact decodeString_stateFree v _ _
  · exact decodeSlice_stateFree decodeString_stateFree _ _ v _ _
  · exact decodeMap_stateFree v _ _

theorem decodeInt_num_err (bits : Nat) (n cur : Int) :
    (decodeInt bits (.num n) cur).2 = none
      ↔ -(2 ^ (bits - 1) : Int) ≤ n ∧ n < (2 ^ (bits - 1) : Int) := by
  simp only [decodeInt]
  split <;> simp_all


/-! ## Timestamps -/

/-- C9: in an otherwise valid run document, an integer `created_at` or
`expires_at` decodes without error exactly when it lies in `[-2^31, 2^31 - 1]`
(so `2147483648` is an error), whereas any integer of `[-2^63, 2^63 - 1]`
decodes without error in `started_at`, `cancelled_at`, `failed_at` and
`completed_at`, and in `created_at` of a message. -/
theorem C9_timestamp_width (pre post mpre mpost : List (String × JSON)) (n : Int)
    (hrun : (decodeRun (.obj (pre ++ post)) Run.zero).2 = none)
    (hmsg : (decodeMessage (.obj (mpre ++ mpost)) Message.zero).2 = none) :
    (∀ key ∈ ["created_at", "expires_at"],
      ((decodeRun (.obj (pre ++ (key, .num n) :: post)) Run.zero).2 = none
        ↔ -(2 ^ 31 : Int) ≤ n ∧ n ≤ 2 ^ 31 - 1))
    ∧ (∀ key ∈ ["started_at", "cancelled_at", "failed_at", "completed_at"],
      -(2 ^ 63 : Int) ≤ n → n ≤ 2 ^ 63 - 1 →
        (decodeRun (.obj (pre ++ (key, .num n) :: post)) Run.zero).2 = none)
    ∧ (-(2 ^ 63 : Int) ≤ n → n ≤ 2 ^ 63 - 1 →
        (decodeMessage (.obj (mpre ++ ("created_at", .num n) :: mpost)) Message.zero).2 = none)
    := by
  have f1 : findField Run.fields "created_at" = some .CreatedAt := by decide
  have f2 : findField Run.fields "expires_at" = some .ExpiresAt := by decide
  have f3 : findField Run.fields "started_at" = some .StartedAt := by decide
  have f4 : findField Run.fields "cancelled_at" = some .CancelledAt := by decide
  have f5 : findField Run.fields "failed_at" = some .FailedAt := by decide
  have f6 : findField Run.fields "completed_at" = some .CompletedAt := by decide
  have f7 : findField Message.fields "created_at" = some .Created := by decide
  refine ⟨?_, ?_, ?_⟩
  · intro key hkey
    simp only [List.mem_cons, List.mem_singleton, List.not_mem_nil, or_false] at hkey
    unfold decodeRun at hrun ⊢
    rw [decodeStruct_insert_err _ _ run_store_stateFree, hrun]
    rcases hkey with rfl | rfl
    · simp [decodeMember, f1, Run.store, decodeInt_num_err]
      omega
    · simp [decodeMember, f2, Run.store, decodeInt_num_err]
      omega
  · intro key hkey hlo hhi
    simp only [List.mem_cons, List.mem_singleton, List.not_mem_nil, or_false] at hkey
    unfold decodeRun at hrun ⊢
    rw [decodeStruct_insert_err _ _ run_store_stateFree, hrun]
    rcases hkey with rfl | rfl | rfl | rfl
    · simp [decodeMember, f3, Run.store, decodeInt_num_err]
      omega
    · simp [decodeMember, f4, Run.store, decodeInt_num_err]
      omega
    · simp [decodeMember, f5, Run.store, decodeInt_num_err]
      omega
    · simp [decodeMember, f6, Run.store, decodeInt_num_err]
      omega
  · intro hlo hhi
    unfold decodeMessage at hmsg ⊢
    rw [decodeStruct_insert_err _ _ message_store_stateFree, hmsg]
    simp [decodeMember, f7, Message.store, decodeInt_num_err]
    omega

/-- C9 (witness): the first second past `2^31 - 1`, in `created_at` and in
`started_at` of a run, and in `created_at` of a message. -/
theorem C9_timestamp_width_witness :
    ((decodeRun (.obj ([("id", .str "run_1")] ++ ("created_at", .num 2147483648) :: []))
        Run.zero).2 = none ↔ -(2 ^ 31 : Int) ≤ 2147483648 ∧ (2147483648 : Int) ≤ 2 ^ 31 - 1)
    ∧ (decodeRun (.obj ([("id", .str "run_1")] ++ ("started_at", .num 2147483648) :: []))
        Run.zero).2 = none
    ∧ (decodeMessage (.obj ([("id", .str "msg_1")] ++ ("created_at", .num 2147483648) :: []))
        Message.zero).2 = none :=
  ⟨(C9_timestamp_width [("id", .str "run_1")] [] [("id", .str "msg_1")] [] 2147483648
      (by decide) (by decide)).1 "created_at" (by simp),
    (C9_timestamp_width [("id", .str "run_1")] [] [("id", .str "msg_1")] [] 2147483648
      (by decide) (by decide)).2.1 "started_at" (by simp) (by norm_num) (by norm_num),
    (C9_timestamp_width [("id", .str "run_1")] [] [("id", .str "msg_1")] [] 2147483648
      (by decide) (by decide)).2.2 (by norm_num) (by norm_num)⟩

theorem run_store_resetOptional (a b c d : Bool) (f : RunField) (v : JSON) (x : Run)
    (h : ∀ k, findField Run.fields k = some f → bindsOptional a b c d (k, v) = false) :
    (Run.store f v (Run.resetOptional a b c d x)).1
      = Run.resetOptional a b c d (Run.store f v x).1 := by
  cases f
  case StartedAt =>
    have := h "started_at" (by decide)
    simp [bindsOptional, show findField Run.fields "started_at" = some .StartedAt by decide]
      at this
    simp [Run.store, Run.resetOptional, this]
  case CancelledAt =>
    have := h "cancelled_at" (by decide)
    simp [bindsOptional, show findField Run.fields "cancelled_at" = some .CancelledAt by decide]
      at this
    simp [Run.store, Run.resetOptional, this]
  case FailedAt =>
    have := h "failed_at" (by decide)
    simp [bindsOptional, show findField Run.fields "failed_at" = some .FailedAt by decide]
      at this
    simp [Run.store, Run.resetOptional, this]
  case CompletedAt =>
    have := h "completed_at" (by decide)
    simp [bindsOptional, show findField Run.fields "completed_at" = some .CompletedAt by decide]
      at this
    simp [Run.store, Run.resetOptional, this]
  all_goals simp [Run.store, Run.resetOptional]

theorem run_resetOptional_store (a b c d : Bool) (f : RunField) (k : String) (v : JSON)
    (x : Run) (hf : findField Run.fields k = some f)
    (h : bindsOptional a b c d (k, v) = true) :
    Run.resetOptional a b c d (Run.store f v x).1 = Run.resetOptional a b c d x := by
  cases f <;> simp [bindsOptional, hf] at h <;> simp [Run.store, Run.resetOptional, h]

theorem foldl_filter_optional (a b c d : Bool) (ms : List (String × JSON))
    (acc acc1 : Decoded Run) (hv : acc1.1 = Run.resetOptional a b c d acc.1)
    (he : acc.2 = none → acc1.2 = none) :
    (List.foldl (decodeMember (findField Run.fields) Run.store) acc1
        (withoutOptional a b c d ms)).1
      = Run.resetOptional a b c d
          (List.foldl (decodeMember (findField Run.fields) Run.store) acc ms).1
    ∧ ((List.foldl (decodeMember (findField Run.fields) Run.store) acc ms).2 = none →
        (List.foldl (decodeMember (findField Run.fields) Run.store) acc1
          (withoutOptional a b c d ms)).2 = none) := by
  induction ms generalizing acc acc1 with
  | nil => exact ⟨hv, he⟩
  | cons m ms ih =>
    rcases m with ⟨k, v⟩
    by_cases hb : bindsOptional a b c d (k, v) = true
    · simp only [withoutOptional, List.filter_cons, hb, Bool.not_true, Bool.false_eq_true,
        if_false, List.foldl_cons]
      apply ih
      · cases hf : findField Run.fields k with
        | none => simp [bindsOptional, hf] at hb
        | some f =>
          simp only [decodeMember, hf]
          rw [run_resetOptional_store a b c d f k v acc.1 hf hb]
          exact hv
      · intro h
        apply he
        cases hf : findField Run.fields k with
        | none => simpa [decodeMember, hf] using h
        | some f =>
          simp only [decodeMember, hf, Option.or_eq_none] at h
          exact h.1
    · have hb' : bindsOptional a b c d (k, v) = false := by simpa using hb
      simp only [withoutOptional, List.filter_cons, hb', Bool.not_false, if_true,
        List.foldl_cons]
      apply ih
      · cases hf : findField Run.fields k with
        | none => simpa [decodeMember, hf] using hv
        | some f =>
          simp only [decodeMember, hf]
          rw [hv]
          apply run_store_resetOptional
          intro k1 hk1
          simp only [bindsOptional, hk1]
          simpa only [bindsOptional, hf] using hb'
      · cases hf : findField Run.fields k with
        | none => simpa [decodeMember, hf] using he
        | some f =>
          simp only [decodeMember, hf, Option.or_eq_none]
          rintro ⟨h1, h2⟩
          refine ⟨he h1, ?_⟩
          rw [run_store_stateFree f v acc1.1 acc.1]
          exact h2


/-- C7: take a run document that decodes without error and remove the members
of any of the four optional timestamps `started_at`, `cancelled_at`,
`failed_at`, `completed_at`: it still decodes without error, each removed
timestamp is zero in the result, and every other field has the value it has
with those members present. -/
theorem C7_optional_timestamps_absent (ms : List (String × JSON))
    (started cancelled failed completed : Bool)
    (hvalid : (decodeRun (.obj ms) Run.zero).2 = none) :
    (decodeRun (.obj (withoutOptional started cancelled failed completed ms)) Run.zero).2 = none
    ∧ (decodeRun (.obj (withoutOptional started cancelled failed completed ms)) Run.zero).1
        = Run.resetOptional started cancelled failed completed (decodeRun (.obj ms) Run.zero).1
    ∧ (started = true →
        (decodeRun (.obj (withoutOptional started cancelled failed completed ms))
          Run.zero).1.StartedAt = 0)
    ∧ (cancelled = true →
        (decodeRun (.obj (withoutOptional started cancelled failed completed ms))
          Run.zero).1.CancelledAt = 0)
    ∧ (failed = true →
        (decodeRun (.obj (withoutOptional started cancelled failed completed ms))
          Run.zero).1.FailedAt = 0)
    ∧ (completed = true →
        (decodeRun (.obj (withoutOptional started cancelled failed completed ms))
          Run.zero).1.CompletedAt = 0) := by
  have h := foldl_filter_optional started cancelled failed completed ms (Run.zero, none)
    (Run.zero, none)
    (by cases started <;> cases cancelled <;> cases failed <;> cases completed <;> rfl)
    (fun _ => rfl)
  have hv : (decodeRun (.obj (withoutOptional started cancelled failed completed ms))
      Run.zero).1
        = Run.resetOptional started cancelled failed completed
            (decodeRun (.obj ms) Run.zero).1 := h.1
  refine ⟨h.2 hvalid, hv, ?_, ?_, ?_, ?_⟩ <;> intro hb <;> rw [hv] <;>
    simp [Run.resetOptional, hb]

/-- C7 (witness): a completed run sent without `cancelled_at` and `failed_at`. -/
theorem C7_optional_timestamps_absent_witness :
    (decodeRun (.obj (withoutOptional false true true false
        [("id", .str "run_1"), ("started_at", .num 1699063291), ("failed_at", .num 0),
          ("completed_at", .num 1699063294)])) Run.zero).2 = none
    ∧ (decodeRun (.obj (withoutOptional false true true false
        [("id", .str "run_1"), ("started_at", .num 1699063291), ("failed_at", .num 0),
          ("completed_at", .num 1699063294)])) Run.zero).1.CancelledAt = 0 :=
  ⟨(C7_optional_timestamps_absent
      [("id", .str "run_1"), ("started_at", .num 1699063291), ("failed_at", .num 0),
        ("completed_at", .num 1699063294)] false true true false (by decide)).1,
    (C7_optional_timestamps_absent
      [("id", .str "run_1"), ("started_at", .num 1699063291), ("failed_at", .num 0),
        ("completed_at", .num 1699063294)] false true true false (by decide)).2.2.2.1 rfl⟩

/-! ## Message and tool outputs -/

/-- C8: the key bound to `Message.AssistantID` is `string`, not `assistant_id`.
Decoding a member `assistant_id` leaves `AssistantID` as it was, decoding a
member `string` sets it; the encoding of a message never has the key
`assistant_id` and carries a non-empty `AssistantID` under the key `string`. -/
theorem C8_assistant_id_key (s : String) (m : Message) :
    (decodeMessage (.obj [("assistant_id", .str s)]) m).1.AssistantID = m.AssistantID
    ∧ (decodeMessage (.obj [("assistant_id", .str s)]) m).2 = none
    ∧ (decodeMessage (.obj [("string", .str s)]) m).1.AssistantID = s
    ∧ (encodeMessage m).lookup "assistant_id" = none
    ∧ (encodeMessage m).lookup "string"
        = if m.AssistantID = "" then none else some (.str m.AssistantID) := by
  have h1 : findField Message.fields "assistant_id" = none := by decide
  have h2 : findField Message.fields "string" = some .AssistantID := by decide
  refine ⟨?_, ?_, ?_, ?_, ?_⟩
  · simp [decodeMessage, decodeStruct, decodeMember, h1]
  · simp [decodeMessage, decodeStruct, decodeMember, h1]
  · simp [decodeMessage, decodeStruct, decodeMember, h2, Message.store, decodeString]
  · by_cases ha : m.AssistantID = "" <;> by_cases hr : m.RunID = "" <;>
      simp [encodeMessage, JSON.lookup, omitEmptyString, ha, hr, List.lookup]
  · by_cases ha : m.AssistantID = "" <;> by_cases hr : m.RunID = "" <;>
      simp [encodeMessage, JSON.lookup, omitEmptyString, ha, hr, List.lookup]

theorem decodeToolOutputs_encode (x : ToolOutputs) (cur : ToolOutputs)
    (hcur : cur = ToolOutputs.zero) :
    decodeToolOutputs (encodeToolOutputs x) cur = (x, none) := by
  have f1 : findField ToolOutputs.fields "tool_call_id" = some .ToolCallID := by decide
  have f2 : findField ToolOutputs.fields "output" = some .Output := by decide
  subst hcur
  rcases x with ⟨a, b⟩
  by_cases ha : a = "" <;> by_cases hb : b = "" <;>
    simp [decodeToolOutputs, encodeToolOutputs, omitEmptyString, ha, hb, decodeStruct,
      decodeMember, f1, f2, ToolOutputs.store, decodeString, ToolOutputs.zero]

theorem decodeElems_encodeToolOutputs (xs : List ToolOutputs) :
    decodeElems decodeToolOutputs ToolOutputs.zero (xs.map encodeToolOutputs) [] = (xs, none) := by
  induction xs with
  | nil => simp [decodeElems]
  | cons x xs ih =>
    simp [decodeElems, decodeToolOutputs_encode x _ rfl, ih]


/-- C10 (counterexample): the request whose `ToolOutputs` slice is nil is
encoded with `null`, not an array, under `tool_outputs`. -/
theorem C10_counterexample :
    encodeToolOutputsRequest ⟨none⟩ = .obj [("tool_outputs", .null)]
    ∧ (∀ items, (encodeToolOutputsRequest ⟨none⟩).lookup "tool_outputs" ≠ some (.arr items)) := by
  refine ⟨rfl, ?_⟩
  intro items h
  have h1 : some JSON.null = some (JSON.arr items) := h
  cases h1

/-- C10 (amended): the body option of `SubmitToolOutputs` carries the request
unchanged. A request with a non-nil `ToolOutputs` slice is encoded as an
object with the single key `tool_outputs` bound to the array of the encoded
entries, in order; an entry has the key `output` exactly when its `Output` is
not empty and the key `tool_call_id` exactly when its `ToolCallID` is not
empty, and no other key; the nil slice is encoded as `null`; decoding the
encoded body gives back the request in every case. -/
theorem C10_tool_outputs_body {σ Req Err ρ : Type}
    (c : Client σ Req Err ToolOutputsRequest ρ) (zero : ρ) (threadID runID : String) (s : σ)
    (args : requestOptions ToolOutputsRequest)
    (req : ToolOutputsRequest) (xs : List ToolOutputs) (x : ToolOutputs) :
    (applyOptions (loggedSetters (c.logged.SubmitToolOutputs zero threadID runID req (s, [])).2.2)
        args).body = some req
    ∧ encodeToolOutputsRequest ⟨some xs⟩
        = .obj [("tool_outputs", .arr (xs.map encodeToolOutputs))]
    ∧ encodeToolOutputsRequest ⟨none⟩ = .obj [("tool_outputs", .null)]
    ∧ ("output" ∈ (encodeToolOutputs x).keys ↔ x.Output ≠ "")
    ∧ ("tool_call_id" ∈ (encodeToolOutputs x).keys ↔ x.ToolCallID ≠ "")
    ∧ (encodeToolOutputs x).keys ⊆ ["tool_call_id", "output"]
    ∧ (encodeToolOutputs x).lookup "output"
        = (if x.Output = "" then none else some (.str x.Output))
    ∧ (encodeToolOutputs x).lookup "tool_call_id"
        = (if x.ToolCallID = "" then none else some (.str x.ToolCallID))
    ∧ decodeToolOutputsRequest (encodeToolOutputsRequest req) ⟨none⟩ = (req, none) := by
  have f1 : findField ToolOutputsRequest.fields "tool_outputs" = some .ToolOutputs := by decide
  refine ⟨?_, rfl, rfl, ?_, ?_, ?_, ?_, ?_, ?_⟩
  · simp only [Client.SubmitToolOutputs, Client.logged]
    rcases h : c.newRequest MethodPost
      (c.fullURL (Sprintf "%s/%s/%s/%s/%s"
        [threadsSuffix, threadID, runs, runID, submitToolOutputs]))
      [withBody req, betaHeader] s with ⟨r, s1⟩
    cases r <;> simp [loggedSetters, applyOptions, withBody, betaHeader]
  · by_cases ha : x.ToolCallID = "" <;> by_cases hb : x.Output = "" <;>
      simp [encodeToolOutputs, omitEmptyString, JSON.keys, ha, hb]
  · by_cases ha : x.ToolCallID = "" <;> by_cases hb : x.Output = "" <;>
      simp [encodeToolOutputs, omitEmptyString, JSON.keys, ha, hb]
  · by_cases ha : x.ToolCallID = "" <;> by_cases hb : x.Output = "" <;>
      simp [encodeToolOutputs, omitEmptyString, JSON.keys, ha, hb]
  · by_cases ha : x.ToolCallID = "" <;> by_cases hb : x.Output = "" <;>
      simp [encodeToolOutputs, omitEmptyString, JSON.lookup, List.lookup, ha, hb]
  · by_cases ha : x.ToolCallID = "" <;> by_cases hb : x.Output = "" <;>
      simp [encodeToolOutputs, omitEmptyString, JSON.lookup, List.lookup, ha, hb]
  · rcases req with ⟨_ | xs⟩
    · simp [encodeToolOutputsRequest, encodeSlice, decodeToolOutputsRequest, decodeStruct,
        decodeMember, f1, ToolOutputsRequest.store, decodeSlice]
    · simp [encodeToolOutputsRequest, encodeSlice, decodeToolOutputsRequest, decodeStruct,
        decodeMember, f1, ToolOutputsRequest.store, decodeSlice, decodeElems_encodeToolOutputs]

/-! ## Complete documents -/

theorem function_store_commutes : StoreCommutes Function.store := by
  intro f g hfg u v x
  cases f <;> cases g <;> first | exact absurd rfl hfg | rfl

theorem decodeFunction_full (v : JSON) (h : isFunctionDoc v = true) :
    ∃ x : Function, (∀ cur, decodeFunction v cur = (x, none))
      ∧ JSON.Equiv (encodeFunction x) v
      ∧ v.lookup "name" = some (.str x.Name)
      ∧ v.lookup "arguments" = some (.str x.Arguments) := by
  have f1 : findField Function.fields "name" = some .Name := by decide
  have f2 : findField Function.fields "arguments" = some .Arguments := by decide
  cases v with
  | obj ms =>
    obtain ⟨hp, hall⟩ := isObjectOf_perm _ (by decide) ms h
    obtain ⟨v1, h1, p1⟩ := hall ("name", isString) (by simp)
    obtain ⟨v2, h2, p2⟩ := hall ("arguments", isString) (by simp)
    obtain ⟨n, rfl⟩ := isString_eq p1
    obtain ⟨a, rfl⟩ := isString_eq p2
    simp only [List.map_cons, List.map_nil] at hp h1 h2
    rw [h1, h2] at hp
    simp only [Option.getD_some] at hp
    refine ⟨⟨n, a⟩, ?_, ?_, h1, h2⟩
    · intro cur
      simp only [decodeFunction, decodeStruct]
      rw [foldl_decodeMember_perm _ _ function_store_commutes _ ms hp
        (by simp [f1, f2])
        (by simp [f1, f2, Function.store, decodeString])]
      simp [decodeMember, f1, f2, Function.store, decodeString]
    · exact JSON.Equiv.obj (List.Perm.refl _)
        (JSON.EquivMembers.cons (JSON.Equiv.str n)
          (JSON.EquivMembers.cons (JSON.Equiv.str a) JSON.EquivMembers.nil)) hp
  | _ => simp [isFunctionDoc, isObjectOf] at h

theorem runToolCall_store_commutes : StoreCommutes RunToolCall.store := by
  intro f g hfg u v x
  cases f <;> cases g <;> first | exact absurd rfl hfg | rfl

theorem decodeRunToolCall_full (v : JSON) (h : isToolCallDoc v = true) :
    ∃ x : RunToolCall, (∀ cur, decodeRunToolCall v cur = (x, none))
      ∧ (JSON.Equiv (encodeRunToolCall x) v ∧ CallOf v x) := by
  have f1 : findField RunToolCall.fields "id" = some .ID := by decide
  have f2 : findField RunToolCall.fields "type" = some .Type_ := by decide
  have f3 : findField RunToolCall.fields "function" = some .Function := by decide
  cases v with
  | obj ms =>
    obtain ⟨hp, hall⟩ := isObjectOf_perm _ (by decide) ms h
    obtain ⟨v1, h1, p1⟩ := hall ("id", isString) (by simp)
    obtain ⟨v2, h2, p2⟩ := hall ("type", isString) (by simp)
    obtain ⟨v3, h3, p3⟩ := hall ("function", isFunctionDoc) (by simp)
    obtain ⟨i, rfl⟩ := isString_eq p1
    obtain ⟨t, rfl⟩ := isString_eq p2
    obtain ⟨fn, hfn, efn, ln, la⟩ := decodeFunction_full v3 p3
    simp only [List.map_cons, List.map_nil] at hp h1 h2 h3
    rw [h1, h2, h3] at hp
    simp only [Option.getD_some] at hp
    refine ⟨⟨i, t, fn⟩, ?_, ?_, ?_⟩
    · intro cur
      simp only [decodeRunToolCall, decodeStruct]
      rw [foldl_decodeMember_perm _ _ runToolCall_store_commutes _ ms hp
        (by simp [f1, f2, f3])
        (by simp [f1, f2, f3, RunToolCall.store, decodeString, hfn])]
      simp [decodeMember, f1, f2, f3, RunToolCall.store, decodeString, hfn]
    · exact JSON.Equiv.obj (List.Perm.refl _)
        (JSON.EquivMembers.cons (JSON.Equiv.str i)
          (JSON.EquivMembers.cons (JSON.Equiv.str t)
            (JSON.EquivMembers.cons efn JSON.EquivMembers.nil))) hp
    · refine ⟨h1, ?_, ?_⟩
      · rw [show JSON.lookup "function" (JSON.obj ms) = some v3 from h3]
        exact ln
      · rw [show JSON.lookup "function" (JSON.obj ms) = some v3 from h3]
        exact la
  | _ => simp [isToolCallDoc, isObjectOf] at h

/-- A conforming slice document decodes in full. -/
theorem decodeSlice_full {α : Type} (dec : JSON → α → Decoded α) (zero : α) (tname : String)
    (p : JSON → Bool) (R : JSON → α → Prop)
    (hdec : ∀ w, p w = true → ∃ x, (∀ cur, dec w cur = (x, none)) ∧ R w x)
    (v : JSON) (h : isSliceOf p v = true) :
    ∃ xs : Option (List α), (∀ cur, decodeSlice dec zero tname v cur = (xs, none))
      ∧ ((v = .null ∧ xs = none)
          ∨ ∃ items ys, v = .arr items ∧ xs = some ys ∧ List.Forall₂ R items ys) := by
  cases v with
  | null => exact ⟨none, fun _ => by simp [decodeSlice], Or.inl ⟨rfl, rfl⟩⟩
  | arr items =>
    simp only [isSliceOf, List.all_eq_true] at h
    obtain ⟨ys, hys, hr⟩ := decodeElems_full dec zero R items (fun w hw => hdec w (h w hw))
    exact ⟨some ys, fun cur => by simp [decodeSlice, hys], Or.inr ⟨items, ys, rfl, rfl, hr⟩⟩
  | _ => simp [isSliceOf] at h

theorem encodeSlice_equiv {α : Type} (enc : α → JSON) (R : JSON → α → Prop)
    (hR : ∀ w x, R w x → JSON.Equiv (enc x) w) (v : JSON) (xs : Option (List α))
    (h : (v = .null ∧ xs = none)
          ∨ ∃ items ys, v = .arr items ∧ xs = some ys ∧ List.Forall₂ R items ys) :
    JSON.Equiv (encodeSlice enc xs) v := by
  rcases h with ⟨rfl, rfl⟩ | ⟨items, ys, rfl, rfl, hr⟩
  · exact JSON.Equiv.null
  · exact JSON.Equiv.arr (equivItems_of_forall₂ enc items ys
      (hr.imp (fun {w x} h => hR w x h)))

theorem decodeSubmitToolOutputs_full (v : JSON) (h : isSubmitToolOutputsDoc v = true) :
    ∃ x : SubmitToolOutputs, (∀ cur, decodeSubmitToolOutputs v cur = (x, none))
      ∧ JSON.Equiv (encodeSubmitToolOutputs x) v
      ∧ ∀ es, v.lookup "tool_calls" = some (.arr es) →
          ∃ calls, x.ToolCalls = some calls ∧ List.Forall₂ CallOf es calls := by
  have f1 : findField SubmitToolOutputs.fields "tool_calls" = some .ToolCalls := by decide
  cases v with
  | obj ms =>
    obtain ⟨hp, hall⟩ := isObjectOf_perm _ (by decide) ms h
    obtain ⟨v1, h1, p1⟩ := hall ("tool_calls", isSliceOf isToolCallDoc) (by simp)
    obtain ⟨xs, hxs, hshape⟩ := decodeSlice_full decodeRunToolCall RunToolCall.zero
      "[]openai.ToolCall" isToolCallDoc (fun w x => JSON.Equiv (encodeRunToolCall x) w ∧ CallOf w x)
      decodeRunToolCall_full v1 p1
    simp only [List.map_cons, List.map_nil] at hp h1
    rw [h1] at hp
    simp only [Option.getD_some] at hp
    refine ⟨⟨xs⟩, ?_, ?_, ?_⟩
    · intro cur
      simp only [decodeSubmitToolOutputs, decodeStruct]
      rw [foldl_decodeMember_perm _ _ (fun f g hfg => by cases f; cases g; exact absurd rfl hfg)
        _ ms hp (by simp [f1]) (by simp [f1, SubmitToolOutputs.store, hxs])]
      simp [decodeMember, f1, SubmitToolOutputs.store, hxs]
    · exact JSON.Equiv.obj (List.Perm.refl _)
        (JSON.EquivMembers.cons
          (encodeSlice_equiv encodeRunToolCall _ (fun _ _ h => h.1) v1 xs hshape)
          JSON.EquivMembers.nil) hp
    · intro es hes
      have hes1 : some v1 = some (JSON.arr es) := h1.symm.trans hes
      cases hes1
      rcases hshape with ⟨hnull, _⟩ | ⟨items, ys, hv, hx, hr⟩
      · cases hnull
      · cases hv
        exact ⟨ys, hx, hr.imp (fun {w x} h => h.2)⟩
  | _ => simp [isSubmitToolOutputsDoc, isObjectOf] at h

theorem requiredAction_store_commutes : StoreCommutes RequiredAction.store := by
  intro f g hfg u v x
  cases f <;> cases g <;> first | exact absurd rfl hfg | rfl

theorem decodeRequiredAction_full (v : JSON) (h : isRequiredActionDoc v = true) :
    ∃ x : RequiredAction, (∀ cur, decodeRequiredAction v cur = (x, none))
      ∧ JSON.Equiv (encodeRequiredAction x) v
      ∧ ∀ es, (v.lookup "submit_tool_outputs").bind (JSON.lookup "tool_calls")
            = some (.arr es) →
          ∃ calls, x.SubmitToolOutputs.ToolCalls = some calls ∧ List.Forall₂ CallOf es calls := by
  have f1 : findField RequiredAction.fields "type" = some .Type_ := by decide
  have f2 : findField RequiredAction.fields "submit_tool_outputs" = some .SubmitToolOutputs := by
    decide
  cases v with
  | obj ms =>
    obtain ⟨hp, hall⟩ := isObjectOf_perm _ (by decide) ms h
    obtain ⟨v1, h1, p1⟩ := hall ("type", isString) (by simp)
    obtain ⟨v2, h2, p2⟩ := hall ("submit_tool_outputs", isSubmitToolOutputsDoc) (by simp)
    obtain ⟨t, rfl⟩ := isString_eq p1
    obtain ⟨st, hst, est, hcalls⟩ := decodeSubmitToolOutputs_full v2 p2
    simp only [List.map_cons, List.map_nil] at hp h1 h2
    rw [h1, h2] at hp
    simp only [Option.getD_some] at hp
    refine ⟨⟨t, st⟩, ?_, ?_, ?_⟩
    · intro cur
      simp only [decodeRequiredAction, decodeStruct]
      rw [foldl_decodeMember_perm _ _ requiredAction_store_commutes _ ms hp
        (by simp [f1, f2])
        (by simp [f1, f2, RequiredAction.store, decodeString, hst])]
      simp [decodeMember, f1, f2, RequiredAction.store, decodeString, hst]
    · exact JSON.Equiv.obj (List.Perm.refl _)
        (JSON.EquivMembers.cons (JSON.Equiv.str t)
          (JSON.EquivMembers.cons est JSON.EquivMembers.nil)) hp
    · intro es hes
      rw [show JSON.lookup "submit_tool_outputs" (JSON.obj ms) = some v2 from h2] at hes
      exact hcalls es hes
  | _ => simp [isRequiredActionDoc, isObjectOf] at h

theorem lastError_store_commutes : StoreCommutes LastError.store := by
  intro f g hfg u v x
  cases f <;> cases g <;> first | exact absurd rfl hfg | rfl

theorem decodeLastError_full (v : JSON) (h : isLastErrorDoc v = true) :
    ∃ x : LastError, (∀ cur, decodeLastError v cur = (x, none))
      ∧ JSON.Equiv (encodeLastError x) v := by
  have f1 : findField LastError.fields "code" = some .Code := by decide
  have f2 : findField LastError.fields "message" = some .Message := by decide
  cases v with
  | obj ms =>
    obtain ⟨hp, hall⟩ := isObjectOf_perm _ (by decide) ms h
    obtain ⟨v1, h1, p1⟩ := hall ("code", isString) (by simp)
    obtain ⟨v2, h2, p2⟩ := hall ("message", isString) (by simp)
    obtain ⟨n, rfl⟩ := isString_eq p1
    obtain ⟨a, rfl⟩ := isString_eq p2
    simp only [List.map_cons, List.map_nil] at hp h1 h2
    rw [h1, h2] at hp
    simp only [Option.getD_some] at hp
    refine ⟨⟨n, a⟩, ?_, ?_⟩
    · intro cur
      simp only [decodeLastError, decodeStruct]
      rw [foldl_decodeMember_perm _ _ lastError_store_commutes _ ms hp
        (by simp [f1, f2])
        (by simp [f1, f2, LastError.store, decodeString])]
      simp [decodeMember, f1, f2, LastError.store, decodeString]
    · exact JSON.Equiv.obj (List.Perm.refl _)
        (JSON.EquivMembers.cons (JSON.Equiv.str n)
          (JSON.EquivMembers.cons (JSON.Equiv.str a) JSON.EquivMembers.nil)) hp
  | _ => simp [isLastErrorDoc, isObjectOf] at h

theorem decodeRunTool_full (v : JSON) (h : isRunToolDoc v = true) :
    ∃ x : RunTool, (∀ cur, decodeRunTool v cur = (x, none))
      ∧ JSON.Equiv (encodeRunTool x) v := by
  have f1 : findField RunTool.fields "type" = some .Type_ := by decide
  cases v with
  | obj ms =>
    obtain ⟨hp, hall⟩ := isObjectOf_perm _ (by decide) ms h
    obtain ⟨v1, h1, p1⟩ := hall ("type", isString) (by simp)
    obtain ⟨n, rfl⟩ := isString_eq p1
    simp only [List.map_cons, List.map_nil] at hp h1
    rw [h1] at hp
    simp only [Option.getD_some] at hp
    refine ⟨⟨n⟩, ?_, ?_⟩
    · intro cur
      simp only [decodeRunTool, decodeStruct]
      rw [foldl_decodeMember_perm _ _ (fun f g hfg => by cases f; cases g; exact absurd rfl hfg)
        _ ms hp (by simp [f1]) (by simp [f1, RunTool.store, decodeString])]
      simp [decodeMember, f1, RunTool.store, decodeString]
    · exact JSON.Equiv.obj (List.Perm.refl _)
        (JSON.EquivMembers.cons (JSON.Equiv.str n) JSON.EquivMembers.nil) hp
  | _ => simp [isRunToolDoc, isObjectOf] at h

theorem decodeString_full (v : JSON) (h : isString v = true) :
    ∃ x : String, (∀ cur, decodeString v cur = (x, none)) ∧ JSON.Equiv (JSON.str x) v := by
  obtain ⟨s, rfl⟩ := isString_eq h
  exact ⟨s, fun _ => rfl, JSON.Equiv.str s⟩

theorem mapInsert_append {α : Type} (k : String) (x : α) (m : List (String × α))
    (h : k ∉ m.map Prod.fst) : mapInsert k x m = m ++ [(k, x)] := by
  induction m with
  | nil => rfl
  | cons e m ih =>
    rcases e with ⟨k1, y⟩
    simp only [List.map_cons, List.mem_cons, not_or] at h
    have hne : ¬ k1 = k := fun he => h.1 he.symm
    simp [mapInsert, hne, ih h.2]

theorem foldl_mapInsert_nodup {α : Type} (L acc : List (String × α))
    (hnd : (L.map Prod.fst).Nodup) (hdis : ∀ k ∈ L.map Prod.fst, k ∉ acc.map Prod.fst) :
    L.foldl (fun m e => mapInsert e.1 e.2 m) acc = acc ++ L := by
  induction L generalizing acc with
  | nil => simp
  | cons e L ih =>
    simp only [List.map_cons, List.nodup_cons] at hnd
    simp only [List.foldl_cons]
    rw [mapInsert_append e.1 e.2 acc (hdis e.1 (by simp)), ih _ hnd.2]
    · simp
    · intro k hk
      simp only [List.map_append, List.map_cons, List.map_nil, List.mem_append,
        List.mem_singleton, not_or]
      refine ⟨hdis k (by simp [hk]), ?_⟩
      rintro rfl
      exact hnd.1 hk

theorem isPlainMembers_nodup (ms : List (String × JSON)) (h : isPlainMembers ms = true) :
    (ms.map Prod.fst).Nodup := by
  induction ms with
  | nil => simp
  | cons m ms ih =>
    rcases m with ⟨k, x⟩
    simp only [isPlainMembers, Bool.and_eq_true] at h
    simp only [List.map_cons, List.nodup_cons]
    exact ⟨by simpa using h.1.2, ih h.2⟩

theorem convertNumber_plain (n : Int) (h : n.natAbs ≤ 2 ^ 53) :
    convertNumber n = (.float64 n, none) := by
  have h1 : roundFloat64 n.natAbs = n.natAbs := by
    unfold roundFloat64
    rw [if_pos h]
  have h2 : n.natAbs < 2 ^ 1024 :=
    lt_of_le_of_lt h (Nat.pow_lt_pow_right (by decide) (by decide))
  have h3 : (if n < 0 then -(n.natAbs : Int) else (n.natAbs : Int)) = n := by
    split <;> omega
  unfold convertNumber
  show (if roundFloat64 n.natAbs < 2 ^ 1024 then _ else _) = _
  rw [h1, if_pos h2, h3]

mutual
theorem decodeAny_plain : ∀ (v : JSON), isPlain v = true →
    (decodeAny v).2 = none ∧ JSON.Equiv (encodeAny (decodeAny v).1) v
  | .null, _ => ⟨rfl, JSON.Equiv.null⟩
  | .bool b, _ => ⟨rfl, JSON.Equiv.bool b⟩
  | .num n, h => by
    have hn : n.natAbs ≤ 2 ^ 53 := of_decide_eq_true h
    have hf : formatFloat64 n = n := by
      unfold formatFloat64
      rw [if_pos hn]
    have hd : decodeAny (.num n) = (.float64 n, none) := by
      rw [← convertNumber_plain n hn]
      rfl
    have he : encodeAny (.float64 n) = .num n := by
      have hr : encodeAny (.float64 n) = .num (formatFloat64 n) := rfl
      rw [hr, hf]
    rw [hd]
    exact ⟨rfl, by rw [he]; exact JSON.Equiv.num n⟩
  | .str s, _ => ⟨rfl, JSON.Equiv.str s⟩
  | .arr items, h => by
    have hi := decodeAnyItems_plain items (by simpa [isPlain] using h)
    simp only [decodeAny, encodeAny]
    exact ⟨hi.1, JSON.Equiv.arr hi.2⟩
  | .obj ms, h => by
    have hp : isPlainMembers ms = true := by simpa [isPlain] using h
    have hm := decodeAnyMembers_plain ms hp
    have hnd : ((decodeAnyMembers ms).1.map Prod.fst).Nodup := by
      rw [hm.2.2]
      exact isPlainMembers_nodup ms hp
    simp only [decodeAny, encodeAny]
    rw [foldl_mapInsert_nodup _ [] hnd (by simp)]
    exact ⟨hm.1, JSON.Equiv.obj (List.perm_insertionSort _ _) hm.2.1 (List.Perm.refl _)⟩
theorem decodeAnyItems_plain : ∀ (vs : List JSON), isPlainItems vs = true →
    (decodeAnyItems vs).2 = none
      ∧ JSON.EquivItems (encodeAnyItems (decodeAnyItems vs).1) vs
  | [], _ => ⟨rfl, JSON.EquivItems.nil⟩
  | v :: vs, h => by
    simp only [isPlainItems, Bool.and_eq_true] at h
    have h1 := decodeAny_plain v h.1
    have h2 := decodeAnyItems_plain vs h.2
    simp only [decodeAnyItems, encodeAnyItems, h1.1, h2.1]
    exact ⟨rfl, JSON.EquivItems.cons h1.2 h2.2⟩
theorem decodeAnyMembers_plain : ∀ (ms : List (String × JSON)), isPlainMembers ms = true →
    (decodeAnyMembers ms).2 = none
      ∧ JSON.EquivMembers (encodeAnyEntries (decodeAnyMembers ms).1) ms
      ∧ (decodeAnyMembers ms).1.map Prod.fst = ms.map Prod.fst
  | [], _ => ⟨rfl, JSON.EquivMembers.nil, rfl⟩
  | (k, v) :: ms, h => by
    simp only [isPlainMembers, Bool.and_eq_true] at h
    have h1 := decodeAny_plain v h.1.1
    have h2 := decodeAnyMembers_plain ms h.2
    refine ⟨?_, ?_, ?_⟩
    · simp only [decodeAnyMembers, h1.1, h2.1]
      rfl
    · simp only [decodeAnyMembers, encodeAnyEntries]
      exact JSON.EquivMembers.cons h1.2 h2.2.1
    · simp only [decodeAnyMembers, List.map_cons, h2.2.2]
end

theorem decodeMap_full (v : JSON) (h : isMetadataDoc v = true) :
    ∃ x, decodeMap v none = (x, none) ∧ JSON.Equiv (encodeMap x) v := by
  cases v with
  | null => exact ⟨none, rfl, JSON.Equiv.null⟩
  | obj ms =>
    have hp : isPlainMembers ms = true := h
    have hm := decodeAnyMembers_plain ms hp
    have hnd : ((decodeAnyMembers ms).1.map Prod.fst).Nodup := by
      rw [hm.2.2]
      exact isPlainMembers_nodup ms hp
    refine ⟨some (decodeAnyMembers ms).1, ?_, ?_⟩
    · simp only [decodeMap, Option.getD_none]
      rw [foldl_mapInsert_nodup _ [] hnd (by simp), hm.1]
      rfl
    · exact JSON.Equiv.obj (List.perm_insertionSort _ _) hm.2.1 (List.Perm.refl _)
  | _ => simp [isMetadataDoc] at h

theorem run_store_commutes : StoreCommutes Run.store := by
  intro f g hfg u v x
  cases f <;> cases g <;> first | exact absurd rfl hfg | rfl

theorem isInt_eq {bits : Nat} {v : JSON} (h : isInt bits v = true) :
    ∃ n, v = .num n ∧ ∀ cur, decodeInt bits (.num n) cur = (n, none) := by
  cases v <;> simp [isInt] at h
  rename_i n
  refine ⟨n, rfl, fun cur => ?_⟩
  simp only [decodeInt]
  rw [if_pos h]

set_option maxHeartbeats 1600000 in
set_option maxRecDepth 4000 in
/-- A complete run document decodes without error and is encoded back to
itself without its zero optional timestamps, up to member order. -/
theorem decodeRun_full (doc : JSON) (h : isRunDoc (isInt 64) doc = true) :
    (decodeRun doc Run.zero).2 = none
      ∧ JSON.Equiv (encodeRun (decodeRun doc Run.zero).1) (dropZeroOptional doc) := by
  have f1 : findField Run.fields "id" = some .ID := by decide
  have f2 : findField Run.fields "object" = some .Object := by decide
  have f3 : findField Run.fields "created_at" = some .CreatedAt := by decide
  have f4 : findField Run.fields "thread_id" = some .ThreadID := by decide
  have f5 : findField Run.fields "assistant_id" = some .AssistantID := by decide
  have f6 : findField Run.fields "status" = some .Status := by decide
  have f7 : findField Run.fields "required_action" = some .RequiredAction := by decide
  have f8 : findField Run.fields "last_error" = some .LastError := by decide
  have f9 : findField Run.fields "expires_at" = some .ExpiresAt := by decide
  have f10 : findField Run.fields "started_at" = some .StartedAt := by decide
  have f11 : findField Run.fields "cancelled_at" = some .CancelledAt := by decide
  have f12 : findField Run.fields "failed_at" = some .FailedAt := by decide
  have f13 : findField Run.fields "completed_at" = some .CompletedAt := by decide
  have f14 : findField Run.fields "model" = some .Model := by decide
  have f15 : findField Run.fields "instructions" = some .Instructions := by decide
  have f16 : findField Run.fields "tools" = some .Tools := by decide
  have f17 : findField Run.fields "file_ids" = some .FileIds := by decide
  have f18 : findField Run.fields "metadata" = some .Metadata := by decide
  cases doc with
  | obj ms =>
    obtain ⟨hp, hall⟩ := isObjectOf_perm _ (by decide) ms h
    obtain ⟨v1, h1, p1⟩ := hall ("id", isString) (by simp)
    obtain ⟨v2, h2, p2⟩ := hall ("object", isString) (by simp)
    obtain ⟨v3, h3, p3⟩ := hall ("created_at", isInt 32) (by simp)
    obtain ⟨v4, h4, p4⟩ := hall ("thread_id", isString) (by simp)
    obtain ⟨v5, h5, p5⟩ := hall ("assistant_id", isString) (by simp)
    obtain ⟨v6, h6, p6⟩ := hall ("status", isString) (by simp)
    obtain ⟨v7, h7, p7⟩ := hall ("required_action", isRequiredActionDoc) (by simp)
    obtain ⟨v8, h8, p8⟩ := hall ("last_error", isLastErrorDoc) (by simp)
    obtain ⟨v9, h9, p9⟩ := hall ("expires_at", isInt 32) (by simp)
    obtain ⟨v10, h10, p10⟩ := hall ("started_at", isInt 64) (by simp)
    obtain ⟨v11, h11, p11⟩ := hall ("cancelled_at", isInt 64) (by simp)
    obtain ⟨v12, h12, p12⟩ := hall ("failed_at", isInt 64) (by simp)
    obtain ⟨v13, h13, p13⟩ := hall ("completed_at", isInt 64) (by simp)
    obtain ⟨v14, h14, p14⟩ := hall ("model", isString) (by simp)
    obtain ⟨v15, h15, p15⟩ := hall ("instructions", isString) (by simp)
    obtain ⟨v16, h16, p16⟩ := hall ("tools", isSliceOf isRunToolDoc) (by simp)
    obtain ⟨v17, h17, p17⟩ := hall ("file_ids", isSliceOf isString) (by simp)
    obtain ⟨v18, h18, p18⟩ := hall ("metadata", isMetadataDoc) (by simp)
    obtain ⟨s1, rfl⟩ := isString_eq p1
    obtain ⟨s2, rfl⟩ := isString_eq p2
    obtain ⟨n3, rfl, d3⟩ := isInt_eq p3
    obtain ⟨s4, rfl⟩ := isString_eq p4
    obtain ⟨s5, rfl⟩ := isString_eq p5
    obtain ⟨s6, rfl⟩ := isString_eq p6
    obtain ⟨x7, d7, e7, _⟩ := decodeRequiredAction_full v7 p7
    obtain ⟨x8, d8, e8⟩ := decodeLastError_full v8 p8
    obtain ⟨n9, rfl, d9⟩ := isInt_eq p9
    obtain ⟨n10, rfl, d10⟩ := isInt_eq p10
    obtain ⟨n11, rfl, d11⟩ := isInt_eq p11
    obtain ⟨n12, rfl, d12⟩ := isInt_eq p12
    obtain ⟨n13, rfl, d13⟩ := isInt_eq p13
    obtain ⟨s14, rfl⟩ := isString_eq p14
    obtain ⟨s15, rfl⟩ := isString_eq p15
    obtain ⟨x16, d16, sh16⟩ := decodeSlice_full decodeRunTool RunTool.zero "[]openai.RunTool"
      isRunToolDoc (fun w x => JSON.Equiv (encodeRunTool x) w) decodeRunTool_full v16 p16
    obtain ⟨x17, d17, sh17⟩ := decodeSlice_full decodeString "" "[]string"
      isString (fun w x => JSON.Equiv (JSON.str x) w) decodeString_full v17 p17
    obtain ⟨x18, d18, e18⟩ := decodeMap_full v18 p18
    have e16 := encodeSlice_equiv encodeRunTool _ (fun _ _ h => h) v16 x16 sh16
    have e17 := encodeSlice_equiv JSON.str _ (fun _ _ h => h) v17 x17 sh17
    simp only [List.map_cons, List.map_nil] at hp
    rw [h1, h2, h3, h4, h5, h6, h7, h8, h9, h10, h11, h12, h13, h14, h15, h16, h17, h18] at hp
    simp only [Option.getD_some] at hp
    have hfold : decodeRun (.obj ms) Run.zero
        = ({ ID := s1, Object := s2, CreatedAt := n3, ThreadID := s4, AssistantID := s5,
             Status := s6, RequiredAction := x7, LastError := x8, ExpiresAt := n9,
             StartedAt := n10, CancelledAt := n11, FailedAt := n12, CompletedAt := n13,
             Model := s14, Instructions := s15, Tools := x16, FileIds := x17,
             Metadata := x18, httpHeader := [] }, none) := by
      simp only [decodeRun, decodeStruct]
      rw [foldl_decodeMember_perm _ _ run_store_commutes _ ms hp
        (by simp [f1, f2, f3, f4, f5, f6, f7, f8, f9, f10, f11, f12, f13, f14, f15, f16, f17,
          f18])
        (by
          simp only [List.mem_cons, List.mem_singleton, List.not_mem_nil, or_false]
          rintro x (rfl | rfl | rfl | rfl | rfl | rfl | rfl | rfl | rfl | rfl | rfl | rfl | rfl
            | rfl | rfl | rfl | rfl | rfl) f hf z
          all_goals
            first
            | (rw [f1] at hf; cases hf; simp [Run.store, decodeString])
            | (rw [f2] at hf; cases hf; simp [Run.store, decodeString])
            | (rw [f3] at hf; cases hf; simp [Run.store, d3])
            | (rw [f4] at hf; cases hf; simp [Run.store, decodeString])
            | (rw [f5] at hf; cases hf; simp [Run.store, decodeString])
            | (rw [f6] at hf; cases hf; simp [Run.store, decodeString])
            | (rw [f7] at hf; cases hf; simp [Run.store, d7])
            | (rw [f8] at hf; cases hf; simp [Run.store, d8])
            | (rw [f9] at hf; cases hf; simp [Run.store, d9])
            | (rw [f10] at hf; cases hf; simp [Run.store, d10])
            | (rw [f11] at hf; cases hf; simp [Run.store, d11])
            | (rw [f12] at hf; cases hf; simp [Run.store, d12])
            | (rw [f13] at hf; cases hf; simp [Run.store, d13])
            | (rw [f14] at hf; cases hf; simp [Run.store, decodeString])
            | (rw [f15] at hf; cases hf; simp [Run.store, decodeString])
            | (rw [f16] at hf; cases hf; simp [Run.store, d16])
            | (rw [f17] at hf; cases hf; simp [Run.store, d17])
            | (rw [f18] at hf; cases hf; simp only [Run.store, decodeMap_stateFree v18 z.Metadata none, d18]))]
      simp [decodeMember, f1, f2, f3, f4, f5, f6, f7, f8, f9, f10, f11, f12, f13, f14, f15,
        f16, f17, f18, Run.store, decodeString, d3, d7, d8, d9, d10, d11, d12, d13, d16, d17,
        d18, Run.zero]
    rw [hfold]
    refine ⟨rfl, ?_⟩
    refine JSON.Equiv.obj (List.Perm.refl _) ?_ (hp.filter _)
    by_cases z10 : n10 = 0 <;> by_cases z11 : n11 = 0 <;> by_cases z12 : n12 = 0 <;>
      by_cases z13 : n13 = 0 <;>
      simp only [encodeRun, omitEmptyInt, z10, z11, z12, z13, if_true, if_false,
        List.cons_append, List.nil_append, List.append_nil, List.filter_cons, List.filter_nil,
        isZeroOptional, decide_True, decide_False, Bool.and_true, Bool.and_false,
        Bool.not_true, Bool.not_false, Bool.or_false, Bool.or_true, Bool.false_eq_true,
        String.reduceBEq, Bool.or_self, Bool.false_and, Bool.true_and, decide_eq_true_eq] <;>
      (repeat' apply JSON.EquivMembers.cons) <;>
      first
        | exact JSON.EquivMembers.nil
        | exact JSON.Equiv.str _
        | exact JSON.Equiv.num _
        | assumption
  | _ => simp [isRunDoc, isObjectOf] at h

theorem dropZeroOptional_nonzero (doc : JSON) (h : isRunDoc (isNonzeroInt 64) doc = true) :
    dropZeroOptional doc = doc := by
  cases doc with
  | obj ms =>
    simp only [isRunDoc, isObjectOf, Bool.and_eq_true, List.all_eq_true] at h
    simp only [dropZeroOptional, JSON.obj.injEq, List.filter_eq_self]
    intro m hm
    have hm1 := h.2 m hm
    rcases m with ⟨k, v⟩
    cases hz : isZeroOptional (k, v) with
    | false => rfl
    | true =>
      exfalso
      simp only [isZeroOptional, Bool.and_eq_true, Bool.or_eq_true, beq_iff_eq] at hz
      obtain ⟨hk, hv⟩ := hz
      cases v <;> simp at hv
      subst hv
      rcases hk with ((rfl | rfl) | rfl) | rfl <;>
        simp [List.lookup, isNonzeroInt] at hm1
  | _ => simp [isRunDoc, isObjectOf] at h

theorem equivMembers_keys {a b : List (String × JSON)} (h : JSON.EquivMembers a b) :
    a.map Prod.fst = b.map Prod.fst := by
  induction a generalizing b with
  | nil => cases h; rfl
  | cons x xs ih =>
    cases h with
    | cons _ hm => simp [ih hm]

theorem equiv_keys_perm {a b : JSON} (h : JSON.Equiv a b) : a.keys.Perm b.keys := by
  cases h with
  | obj p1 hm p2 =>
    simp only [JSON.keys]
    exact (p1.map Prod.fst).trans ((equivMembers_keys hm) ▸ (p2.map Prod.fst))
  | _ => exact List.Perm.refl _

/-- C3 (counterexample): `runningRunDoc` has every documented member with a
value of the documented type and decodes without error, but its encoding has
no key `completed_at` (nor `cancelled_at`, `failed_at`): a zero `int64`
timestamp is dropped by `omitempty`. -/
theorem C3_counterexample :
    isRunDoc (isInt 64) runningRunDoc = true
    ∧ (decodeRun runningRunDoc Run.zero).2 = none
    ∧ "completed_at" ∈ runningRunDoc.keys
    ∧ "completed_at" ∉ (encodeRun (decodeRun runningRunDoc Run.zero).1).keys
    ∧ ¬ JSON.Equiv (encodeRun (decodeRun runningRunDoc Run.zero).1) runningRunDoc := by
  refine ⟨by decide, by decide, by decide, by decide, ?_⟩
  intro h
  have hp := equiv_keys_perm h
  have hm : "completed_at" ∈ (encodeRun (decodeRun runningRunDoc Run.zero).1).keys :=
    hp.mem_iff.2 (by decide)
  revert hm
  decide

/-- C3 (amended): a document that has exactly the documented members of a run,
each once and in any order, with values of the documented types, decodes
without error, and the encoding of the decoded run is, up to member order, the
document without those of `started_at`, `cancelled_at`, `failed_at` and
`completed_at` that are zero: same values, same keys. When none of the four
is zero this is the document itself. -/
theorem C3_run_round_trip (doc : JSON) (h : isRunDoc (isInt 64) doc = true) :
    (decodeRun doc Run.zero).2 = none
      ∧ JSON.Equiv (encodeRun (decodeRun doc Run.zero).1) (dropZeroOptional doc)
      ∧ (encodeRun (decodeRun doc Run.zero).1).keys.Perm (dropZeroOptional doc).keys
      ∧ (isRunDoc (isNonzeroInt 64) doc = true → dropZeroOptional doc = doc) :=
  ⟨(decodeRun_full doc h).1, (decodeRun_full doc h).2,
    equiv_keys_perm (decodeRun_full doc h).2, dropZeroOptional_nonzero doc⟩

/-- C3 (witness): the document `runningRunDoc`, three of whose optional
timestamps are zero, and the document `completeRunDoc`, where none is. -/
theorem C3_run_round_trip_witness :
    (isRunDoc (isInt 64) runningRunDoc = true
      ∧ JSON.Equiv (encodeRun (decodeRun runningRunDoc Run.zero).1)
          (dropZeroOptional runningRunDoc)
      ∧ (dropZeroOptional runningRunDoc).keys
          = ["id", "object", "created_at", "thread_id", "assistant_id", "status",
             "required_action", "last_error", "expires_at", "started_at", "model",
             "instructions", "tools", "file_ids", "metadata"])
    ∧ (isRunDoc (isInt 64) completeRunDoc = true
      ∧ JSON.Equiv (encodeRun (decodeRun completeRunDoc Run.zero).1)
          (dropZeroOptional completeRunDoc)
      ∧ dropZeroOptional completeRunDoc = completeRunDoc) :=
  ⟨⟨by decide, (C3_run_round_trip runningRunDoc (by decide)).2.1, by decide⟩,
    ⟨by decide, (C3_run_round_trip completeRunDoc (by decide)).2.1,
      (C3_run_round_trip completeRunDoc (by decide)).2.2.2 (by decide)⟩⟩

/-! ## Pending tool calls -/

theorem foldl_keeps_requiredAction (ms : List (String × JSON))
    (h : ∀ m ∈ ms, findField Run.fields m.1 ≠ some .RequiredAction) (acc : Decoded Run) :
    (ms.foldl (decodeMember (findField Run.fields) Run.store) acc).1.RequiredAction
      = acc.1.RequiredAction := by
  induction ms generalizing acc with
  | nil => rfl
  | cons m ms ih =>
    simp only [List.foldl_cons]
    rw [ih (fun x hx => h x (List.mem_cons_of_mem _ hx))]
    have hm := h m (List.mem_cons_self _ _)
    cases hf : findField Run.fields m.1 with
    | none => simp [decodeMember, hf]
    | some f =>
      rw [hf] at hm
      cases f <;> first | exact absurd rfl hm | simp [decodeMember, hf, Run.store]

/-- C6: take a run document that decodes without error and has no member for
`required_action`, and add the member `required_action` with a conforming
value whose `submit_tool_outputs.tool_calls` is the array `es` (whatever the
`status` member is, `requires_action` included). Decoding succeeds and
`RequiredAction.SubmitToolOutputs.ToolCalls` has as many entries as `es`, in the
same order, each carrying the `id`, function `name` and `arguments` string of
the entry at its position, empty strings included. -/
theorem C6_tool_calls_decoded (pre post : List (String × JSON)) (ra : JSON) (es : List JSON)
    (hother : ∀ m ∈ pre ++ post, findField Run.fields m.1 ≠ some .RequiredAction)
    (hvalid : (decodeRun (.obj (pre ++ post)) Run.zero).2 = none)
    (hra : isRequiredActionDoc ra = true)
    (hes : (ra.lookup "submit_tool_outputs").bind (JSON.lookup "tool_calls") = some (.arr es)) :
    (decodeRun (.obj (pre ++ ("required_action", ra) :: post)) Run.zero).2 = none
    ∧ ∃ calls : List ToolCall,
        (decodeRun (.obj (pre ++ ("required_action", ra) :: post))
            Run.zero).1.RequiredAction.SubmitToolOutputs.ToolCalls = some calls
        ∧ calls.length = es.length
        ∧ List.Forall₂ CallOf es calls := by
  have f7 : findField Run.fields "required_action" = some .RequiredAction := by decide
  obtain ⟨x, hx, _, hcalls⟩ := decodeRequiredAction_full ra hra
  obtain ⟨calls, hc, hall⟩ := hcalls es hes
  constructor
  · unfold decodeRun at hvalid ⊢
    rw [decodeStruct_insert_err _ _ run_store_stateFree]
    exact ⟨hvalid, by simp [decodeMember, f7, Run.store, hx]⟩
  · refine ⟨calls, ?_, hall.length_eq.symm, hall⟩
    simp only [decodeRun, decodeStruct, List.foldl_append, List.foldl_cons]
    rw [foldl_keeps_requiredAction post
      (fun m hm => hother m (List.mem_append_right _ hm))]
    simp [decodeMember, f7, Run.store, hx, hc]

/-- C6 (witness): a run with status `requires_action` and the two pending calls
of `pendingAction`, the first with empty arguments. -/
theorem C6_tool_calls_decoded_witness :
    (decodeRun (.obj ([("id", .str "run_1"), ("status", .str "requires_action")]
        ++ ("required_action", pendingAction) :: [("model", .str "gpt-4")])) Run.zero).2 = none
    ∧ ∃ calls : List ToolCall,
      (decodeRun (.obj ([("id", .str "run_1"), ("status", .str "requires_action")]
        ++ ("required_action", pendingAction) :: [("model", .str "gpt-4")]))
          Run.zero).1.RequiredAction.SubmitToolOutputs.ToolCalls = some calls
      ∧ calls.length = 2 :=
  ⟨(C6_tool_calls_decoded [("id", .str "run_1"), ("status", .str "requires_action")]
      [("model", .str "gpt-4")] pendingAction _ (by decide) (by decide) (by decide) rfl).1,
    (C6_tool_calls_decoded [("id", .str "run_1"), ("status", .str "requires_action")]
      [("model", .str "gpt-4")] pendingAction _ (by decide) (by decide) (by decide) rfl).2.imp
      (fun _ h => ⟨h.1, h.2.1⟩)⟩

end OpenAI
